import Mathlib

/-!
Formal model of the whatsapp-sure-bot conversation core: the free-text
transaction parser (src/parser.ts), the session store and list formatters
(src/state.ts), the sliding-window rate limiter (src/rate-limiter.ts), the
SessionManager expiry sweep (src/types.ts), the conversation engine
(src/bot.ts) and the process wiring (src/index.ts).

Strings are modelled as lists of characters; JavaScript numbers as exact
rationals (integers where the source only ever holds integers); timestamps
(Date.now / new Date) as integers passed in explicitly.  The regular
expressions of the parser are embedded as a small backtracking matcher whose
alternative order mirrors the JavaScript engine (greedy/lazy quantifiers,
leftmost-first alternatives), restricted to the constructs the four source
patterns use.  Asynchronous collaborator calls (transaction submission,
recent-transaction fetch) are modelled by passing their outcome in as data.
-/

abbrev Str := List Char

def str (s : String) : Str := s.data

/-- Character class of the regex token d: the ASCII digits. -/
def isDigitChar (c : Char) : Bool := '0' ≤ c && c ≤ '9'

/-- Characters matched by the regex token s and stripped by String.trim in
JavaScript: ASCII whitespace, NBSP, the Unicode space separators, the line
separators and the BOM. -/
def wsChars : Str :=
  ['\t', '\n', '\x0b', '\x0c', '\r', ' ', '\u00a0', '\u1680', '\u2000', '\u2001', '\u2002', '\u2003', '\u2004', '\u2005', '\u2006', '\u2007', '\u2008', '\u2009', '\u200a', '\u2028', '\u2029', '\u202f', '\u205f', '\u3000', '\ufeff']

def isJsWs (c : Char) : Bool := c ∈ wsChars

/-- Line terminators, which the regex token . (dot) does not match. -/
def lineTerminators : Str := ['\n', '\r', '\u2028', '\u2029']

def dotMatch (c : Char) : Bool := !(c ∈ lineTerminators)

/-- Characters removed globally by validateInput\x27s sanitation step. -/
def sanitizeChars : Str := ['<', '>', '"', '\x27', '\x60']

/-- JavaScript String.prototype.trim. -/
def jsTrim (s : Str) : Str :=
  ((s.dropWhile isJsWs).reverse.dropWhile isJsWs).reverse

/-- JavaScript String.prototype.toLowerCase (on the characters the bot
compares: ASCII commands and names). -/
def jsToLower (s : Str) : Str := s.map Char.toLower

/-- JavaScript String.prototype.replace with a plain-string pattern and empty
replacement: removes the first occurrence of the character. -/
def removeFirst (c : Char) : Str → Str
  | [] => []
  | x :: xs => if x = c then xs else x :: removeFirst c xs

def digitVal (c : Char) : ℕ := c.toNat - 48

def digitsVal (s : Str) : ℕ := s.foldl (fun a c => 10 * a + digitVal c) 0

def digitChar (n : ℕ) : Char := Char.ofNat (48 + n)

def natReprAux : ℕ → ℕ → Str
  | 0, _ => []
  | fuel + 1, n =>
    if n < 10 then [digitChar n]
    else natReprAux fuel (n / 10) ++ [digitChar (n % 10)]

/-- Decimal numeral of a natural number, as JavaScript template interpolation
renders a nonnegative integer. -/
def natRepr (n : ℕ) : Str := natReprAux (n + 1) n

/-- Longest digit prefix, as parseInt consumes it; none when there is no
digit. -/
def decDigitsOf (s : Str) : Option ℕ :=
  let ds := s.takeWhile isDigitChar
  if ds = [] then none else some (digitsVal ds)

def isHexDigitChar (c : Char) : Bool :=
  isDigitChar c || ('a' ≤ c && c ≤ 'f') || ('A' ≤ c && c ≤ 'F')

def hexDigitVal (c : Char) : ℕ :=
  if isDigitChar c then digitVal c
  else if 'a' ≤ c && c ≤ 'f' then c.toNat - 87
  else c.toNat - 55

def hexDigitsOf (s : Str) : Option ℕ :=
  let ds := s.takeWhile isHexDigitChar
  if ds = [] then none else some (ds.foldl (fun a c => 16 * a + hexDigitVal c) 0)

def jsParseIntCore : Str → Option ℕ
  | c0 :: c :: rest =>
    if c0 = '0' ∧ (c = 'x' ∨ c = 'X') then hexDigitsOf rest
    else decDigitsOf (c0 :: c :: rest)
  | s => decDigitsOf s

/-- JavaScript parseInt with no radix argument: skip leading whitespace, an
optional sign, a 0x/0X prefix selecting base 16, then the longest digit
prefix; none models NaN. -/
def jsParseInt (s : Str) : Option ℤ :=
  match s.dropWhile isJsWs with
  | [] => none
  | c :: rest =>
    if c = '-' then (jsParseIntCore rest).map (fun n => -(n : ℤ))
    else if c = '+' then (jsParseIntCore rest).map (fun n => (n : ℤ))
    else (jsParseIntCore (c :: rest)).map (fun n => (n : ℤ))

def fracVal (s : Str) : ℚ := (digitsVal s : ℚ) / (10 ^ s.length)

/-- JavaScript parseFloat on the shapes the parser can ever pass it (an
optional sign, digits, an optional dot with digit suffix): skip leading
whitespace and parse the longest decimal prefix, none modelling NaN.  The
exponent and Infinity forms of parseFloat cannot occur here because every
call site passes a capture of one of the four patterns, with a dollar sign
and a comma removed, and those captures never contain e, E, I or a second
dot.  Floating-point values are modelled as exact rationals. -/
def jsParseFloat (s : Str) : Option ℚ :=
  let s1 := s.dropWhile isJsWs
  let sign : ℚ := if s1.head? = some '-' then -1 else 1
  let s2 := if s1.head? = some '-' ∨ s1.head? = some '+' then s1.tail else s1
  let ip := s2.takeWhile isDigitChar
  let rest := s2.dropWhile isDigitChar
  if ip = [] then
    if rest.head? = some '.' then
      let fp := rest.tail.takeWhile isDigitChar
      if fp = [] then none else some (sign * fracVal fp)
    else none
  else
    if rest.head? = some '.' then
      some (sign * ((digitsVal ip : ℚ) + fracVal (rest.tail.takeWhile isDigitChar)))
    else some (sign * (digitsVal ip : ℚ))

/-- Lookup in a JavaScript Map modelled as an association list with unique
keys. -/
def mapGet {α : Type} (m : List (Str × α)) (k : Str) : Option α :=
  (m.find? (fun p => p.1 = k)).map (fun p => p.2)

/-- Map.prototype.set: replace the value under an existing key, else append a
new entry. -/
def mapSet {α : Type} : List (Str × α) → Str → α → List (Str × α)
  | [], k, v => [(k, v)]
  | p :: ps, k, v => if p.1 = k then (k, v) :: ps else p :: mapSet ps k v

/-- Map.prototype.delete. -/
def mapDelete {α : Type} (m : List (Str × α)) (k : Str) : List (Str × α) :=
  m.filter (fun p => ¬(p.1 = k))

/-- Character classes appearing in the four parser patterns. -/
inductive CC
  | digit
  | space
  | dot
deriving DecidableEq

def ccMatch : CC → Char → Bool
  | .digit, c => isDigitChar c
  | .space, c => isJsWs c
  | .dot, c => dotMatch c

/-- Regex fragments used by the four parser patterns.  Quantifiers other than
the optional apply only to single character classes, which is all the source
patterns need. -/
inductive RE
  | eps
  | lit (c : Char)
  | cls (cc : CC)
  | seq (a b : RE)
  | opt (a : RE)
  | plusG (cc : CC)
  | plusL (cc : CC)

/-- Backtracking match enumeration: the list of possible remainders after the
fragment matches a prefix of the string, in the priority order of the
JavaScript engine (greedy quantifiers longest first, lazy shortest first,
optional with the present branch first). -/
def reMatches : RE → Str → List Str
  | .eps, s => [s]
  | .lit c, s =>
    match s with
    | [] => []
    | x :: xs => if x = c then [xs] else []
  | .cls cc, s =>
    match s with
    | [] => []
    | x :: xs => if ccMatch cc x then [xs] else []
  | .seq a b, s => (reMatches a s).flatMap (reMatches b)
  | .opt a, s => reMatches a s ++ [s]
  | .plusG cc, s =>
    let n := (s.takeWhile (ccMatch cc)).length
    (List.range n).map (fun i => s.drop (n - i))
  | .plusL cc, s =>
    let n := (s.takeWhile (ccMatch cc)).length
    (List.range n).map (fun i => s.drop (i + 1))

/-- Full-string match of an anchored pattern of the shape (A)s+(B) with two
capture groups, as all four source patterns have: the first assignment in
backtracking priority order such that A matches a prefix, one-or-more
whitespace follows, and B matches exactly the rest.  Returns the two
captures. -/
def matchTwoGroups (A B : RE) (s : Str) : Option (Str × Str) :=
  (reMatches A s).findSome? (fun r1 =>
    (reMatches (RE.plusG CC.space) r1).findSome? (fun r2 =>
      if ([] : Str) ∈ reMatches B r2 then
        some (s.take (s.length - r1.length), r2)
      else none))

/-- The optional decimal places of the number token. -/
def decimalPart : RE := .seq (.lit '.') (.seq (.cls .digit) (.opt (.cls .digit)))

/-- The number token without dollar sign, as in patterns 1 and 3. -/
def numCore : RE := .seq (.opt (.lit '-')) (.seq (.plusG .digit) (.opt decimalPart))

/-- The number token with optional dollar sign, as in patterns 2 and 4. -/
def numDollar : RE := .seq (.opt (.lit '$')) numCore

def pattern1Match (s : Str) : Option (Str × Str) :=
  matchTwoGroups numCore (RE.plusG CC.dot) s

def pattern2Match (s : Str) : Option (Str × Str) :=
  matchTwoGroups numDollar (RE.plusG CC.dot) s

def pattern3Match (s : Str) : Option (Str × Str) :=
  matchTwoGroups (RE.plusL CC.dot) numCore s

def pattern4Match (s : Str) : Option (Str × Str) :=
  matchTwoGroups (RE.plusL CC.dot) numDollar s

structure ParsedTransaction where
  amount : ℚ
  name : Str
deriving DecidableEq

/-- parser.ts validateInput: trim, reject empty or over-500-character input,
strip the sanitation character class globally, reject if nothing is left. -/
def validateInput (input : Str) : Option Str :=
  let trimmed := jsTrim input
  if trimmed.length = 0 ∨ 500 < trimmed.length then none
  else
    let sanitized := trimmed.filter (fun c => ¬(c ∈ sanitizeChars))
    if sanitized.length = 0 then none else some sanitized

/-- Body of the loop in parseTransactionDetails for one pattern: on a match,
strip the first dollar sign and the first comma from the amount capture, trim
the name capture and check its length; on any failure fall through to the
next pattern.  For patterns 3 and 4 the group roles are swapped. -/
def tryPattern (m : Option (Str × Str)) (swapGroups : Bool) : Option ParsedTransaction :=
  match m with
  | none => none
  | some (g1, g2) =>
    let amountStr := removeFirst ',' (removeFirst '$' (if swapGroups then g2 else g1))
    let nm := jsTrim (if swapGroups then g1 else g2)
    match jsParseFloat amountStr with
    | none => none
    | some a =>
      if 0 < nm.length ∧ nm.length ≤ 255 then some ⟨|a|, nm⟩ else none

/-- parser.ts parseTransactionDetails: validate, then try the four patterns
in order. -/
def parseTransactionDetails (input : Str) : Option ParsedTransaction :=
  match validateInput input with
  | none => none
  | some v =>
    (tryPattern (pattern1Match v) false).orElse (fun _ =>
    (tryPattern (pattern2Match v) false).orElse (fun _ =>
    (tryPattern (pattern3Match v) true).orElse (fun _ =>
    tryPattern (pattern4Match v) true)))

/-- The parser with patterns 1 and 2 collapsed into the single pattern 2, the
rewrite the specification asserts to be behaviour-preserving; defined for the
refinement comparison, not taken from the source. -/
def parseCollapsedPatterns (input : Str) : Option ParsedTransaction :=
  match validateInput input with
  | none => none
  | some v =>
    (tryPattern (pattern2Match v) false).orElse (fun _ =>
    (tryPattern (pattern3Match v) true).orElse (fun _ =>
    tryPattern (pattern4Match v) true))

/-- types.ts ConversationState. -/
inductive ConversationState
  | IDLE
  | SELECT_TYPE
  | SELECT_ACCOUNT
  | ENTER_DETAILS
  | SELECT_CATEGORY
deriving DecidableEq

/-- The expense/income tag of types.ts. -/
inductive TransactionType
  | expense
  | income
deriving DecidableEq

structure Category where
  id : Str
  name : Str
  classification : Str
deriving DecidableEq

structure Account where
  id : Str
  name : Str
  account_type : Str
  balance : Option Str := none
  currency : Option Str := none
deriving DecidableEq

/-- types.ts UserSession.  The JavaScript optional fields are Options; the
display-only metadata of Category (color, icon) and the unused Transaction
fields are omitted because no modelled code reads them. -/
structure UserSession where
  state : ConversationState
  transactionType : Option TransactionType := none
  accountId : Option Str := none
  amount : Option ℚ := none
  name : Option Str := none
  categories : Option (List Category) := none
  accounts : Option (List Account) := none
  createdAt : ℤ
  lastActivityAt : ℤ
deriving DecidableEq

structure CreateTransactionParams where
  account_id : Str
  date : Str
  amount : ℚ
  name : Str
  category_id : Str
  nature : Option TransactionType
deriving DecidableEq

/-- The Transaction fields formatTransactionList reads. -/
structure Transaction where
  id : Str
  date : Str
  amount : Str
  name : Str
  category : Option Category := none
deriving DecidableEq

/-- A session as both state.ts getSession and state.ts resetSession freshly
create it. -/
def freshSession (now : ℤ) : UserSession :=
  { state := .IDLE, createdAt := now, lastActivityAt := now }

/-- types.ts SessionManager.clearExpiredSessions: delete every entry of the
manager\x27s own map whose lastActivityAt is more than sessionTimeoutMs in
the past. -/
def clearExpiredSessions (sessionTimeoutMs : ℤ)
    (sessions : List (Str × UserSession)) (now : ℤ) : List (Str × UserSession) :=
  sessions.filter (fun p => ¬(sessionTimeoutMs < now - p.2.lastActivityAt))

/-- The module-level session map of state.ts, used by every Bot handler. -/
abbrev SessionStore := List (Str × UserSession)

/-- state.ts getSession: create an IDLE session on first access; no timestamp
update on a plain read.  Returns the session and the possibly-extended
map. -/
def getSession (m : SessionStore) (userId : Str) (now : ℤ) : UserSession × SessionStore :=
  match mapGet m userId with
  | some s => (s, m)
  | none => (freshSession now, mapSet m userId (freshSession now))

/-- A Partial of UserSession as the updateSession call sites build one: a
field that is some v is present in the object literal with value v. -/
structure SessionUpdate where
  state : Option ConversationState := none
  transactionType : Option TransactionType := none
  accountId : Option Str := none
  amount : Option ℚ := none
  name : Option Str := none
  categories : Option (List Category) := none
  accounts : Option (List Account) := none

/-- Object spread of a Partial over a session: present fields override. -/
def applyUpdates (s : UserSession) (u : SessionUpdate) : UserSession :=
  { s with
    state := u.state.getD s.state,
    transactionType := (u.transactionType.map some).getD s.transactionType,
    accountId := (u.accountId.map some).getD s.accountId,
    amount := (u.amount.map some).getD s.amount,
    name := (u.name.map some).getD s.name,
    categories := (u.categories.map some).getD s.categories,
    accounts := (u.accounts.map some).getD s.accounts }

/-- state.ts updateSession: merge the update over the (possibly freshly
created) session and stamp lastActivityAt. -/
def updateSession (m : SessionStore) (userId : Str) (updates : SessionUpdate)
    (now : ℤ) : UserSession × SessionStore :=
  let g := getSession m userId now
  let updated := { applyUpdates g.1 updates with lastActivityAt := now }
  (updated, mapSet g.2 userId updated)

/-- state.ts resetSession: replace with a fresh IDLE session. -/
def resetSession (m : SessionStore) (userId : Str) (now : ℤ) : SessionStore :=
  mapSet m userId (freshSession now)

/-- One numbered line of the category list. -/
def categoryLine (n : ℕ) (c : Category) : Str :=
  natRepr n ++ str ". " ++ c.name ++ str "\n"

/-- state.ts formatCategoriesList: expense categories numbered from 1, income
categories numbered continuing after them. -/
def formatCategoriesList (categories : List Category) : Str :=
  let expenseCategories := categories.filter (fun c => c.classification = str "expense")
  let incomeCategories := categories.filter (fun c => c.classification = str "income")
  str "📁 *Select a category:*\n\n"
  ++ (if 0 < expenseCategories.length then
        str "*Expenses:*\n"
        ++ (expenseCategories.enum.map (fun p => categoryLine (p.1 + 1) p.2)).flatten
      else [])
  ++ (if 0 < incomeCategories.length then
        str "\n*Income:*\n"
        ++ (incomeCategories.enum.map
             (fun p => categoryLine (expenseCategories.length + p.1 + 1) p.2)).flatten
      else [])
  ++ str "\nReply with the number or type the category name.\n\n_Type \"/back\" to return to main menu._"

/-- The order in which formatCategoriesList lists the categories: the number
printed next to a category is its 1-based position in this list. -/
def renderedOrder (categories : List Category) : List Category :=
  categories.filter (fun c => c.classification = str "expense")
    ++ categories.filter (fun c => c.classification = str "income")

/-- One numbered line of the account list; a present but empty balance string
is falsy in JavaScript and renders nothing. -/
def accountLine (n : ℕ) (a : Account) : Str :=
  natRepr n ++ str ". " ++ a.name
    ++ (match a.balance with
        | some b => if b = [] then [] else str " (" ++ b ++ str ")"
        | none => [])
    ++ str "\n"

/-- state.ts formatAccountsList. -/
def formatAccountsList (accounts : List Account) : Str :=
  if accounts.length = 0 then
    str "❌ No accounts found. Please create an account in Sure.am first."
  else
    str "🏦 *Select an account:*\n\n"
    ++ (accounts.enum.map (fun p => accountLine (p.1 + 1) p.2)).flatten
    ++ str "\nReply with the number.\n\n_Type \"/back\" to return to main menu._"

/-- The rate limiter\x27s per-identity attempt map. -/
abbrev RateLimiterAttempts := List (Str × List ℤ)

structure RateLimiterConfig where
  maxAttempts : ℤ
  windowMs : ℤ
deriving DecidableEq

/-- rate-limiter.ts constructor: assign the two fields (with TypeScript
default parameters 5 and 60000 for omitted arguments) and start the cleanup
timer.  The body contains no argument validation and cannot throw; the Except
return shape records that a constructor could reject, as the SureAPI
constructor does, but this one never does. -/
def rateLimiterInit (maxAttemptsArg windowMsArg : Option ℤ) :
    Except Str RateLimiterConfig :=
  .ok { maxAttempts := maxAttemptsArg.getD 5, windowMs := windowMsArg.getD 60000 }

/-- rate-limiter.ts isAllowed: filter the stored attempts to those within the
window; reject (recording nothing) when the limit is reached, otherwise store
the filtered attempts with the current timestamp appended and admit. -/
def isAllowed (cfg : RateLimiterConfig) (userAttempts : RateLimiterAttempts)
    (userId : Str) (now : ℤ) : Bool × RateLimiterAttempts :=
  let attempts := (mapGet userAttempts userId).getD []
  let recentAttempts := attempts.filter (fun t => now - t < cfg.windowMs)
  if cfg.maxAttempts ≤ (recentAttempts.length : ℤ) then (false, userAttempts)
  else (true, mapSet userAttempts userId (recentAttempts ++ [now]))

/-- rate-limiter.ts getRemaining. -/
def getRemaining (cfg : RateLimiterConfig) (userAttempts : RateLimiterAttempts)
    (userId : Str) (now : ℤ) : ℤ :=
  let attempts := (mapGet userAttempts userId).getD []
  let recentAttempts := attempts.filter (fun t => now - t < cfg.windowMs)
  max 0 (cfg.maxAttempts - (recentAttempts.length : ℤ))

/-- rate-limiter.ts cleanup: refilter every identity\x27s attempts and drop
identities left with none. -/
def rateLimiterCleanup (cfg : RateLimiterConfig)
    (userAttempts : RateLimiterAttempts) (now : ℤ) : RateLimiterAttempts :=
  (userAttempts.map
    (fun p => (p.1, p.2.filter (fun t => now - t < cfg.windowMs)))).filter
    (fun p => ¬(p.2 = []))

/-- Replay of a call sequence against the limiter, threading the attempt
map. -/
def runTrace (cfg : RateLimiterConfig) (st : RateLimiterAttempts) :
    List (Str × ℤ) → RateLimiterAttempts
  | [] => st
  | (u, t) :: rest => runTrace cfg (isAllowed cfg st u t).2 rest

/-- The calls of a sequence that isAllowed admits, by replay. -/
def admittedCalls (cfg : RateLimiterConfig) (st : RateLimiterAttempts) :
    List (Str × ℤ) → List (Str × ℤ)
  | [] => []
  | (u, t) :: rest =>
    let r := isAllowed cfg st u t
    (if r.1 then [(u, t)] else []) ++ admittedCalls cfg r.2 rest

/-- Timestamps of the admitted calls of one identity, replaying from an empty
limiter. -/
def admittedTimesFor (cfg : RateLimiterConfig) (events : List (Str × ℤ))
    (userId : Str) : List ℤ :=
  ((admittedCalls cfg [] events).filter (fun e => e.1 = userId)).map (fun e => e.2)

/-- The reference-data caches of bot.ts, loaded once by initialize. -/
structure SureBot where
  categories : List Category
  accounts : List Account

/-- External inputs of one handleMessage call: the clock, the ISO date used
for submissions, and the outcomes of the two collaborator calls that can
occur during the message. -/
structure BotEnv where
  now : ℤ
  today : Str
  submitOutcome : CreateTransactionParams → Except Str Unit
  recentOutcome : Except Str (List Transaction)

/-- Observable result of one handleMessage call: the reply, the state.ts
session map afterwards, and the parameters of the createTransaction call if
one was made. -/
structure BotResult where
  reply : Str
  sessions : SessionStore
  submitted : Option CreateTransactionParams
deriving DecidableEq

def getMainMenu : Str :=
  str "🏠 *Main Menu*\n\nCommands:\n• *new* - Add transaction\n• */recent* - View recent transactions\n• */accounts* - List accounts\n• */help* - Show this message"

def getHelpMessage : Str :=
  str "📚 *Sure.am WhatsApp Bot Help*\n\n*Commands:*\n• *new* or */add* - Add a new transaction\n• */recent* - View recent transactions\n• */accounts* - List your accounts\n• */back* - Go back to main menu\n• */cancel* - Cancel current operation\n• */help* - Show this message\n\n*How to add a transaction:*\n1. Type \"new\"\n2. Select Expense or Income\n3. Select an account\n4. Enter amount and name (e.g., \"25.50 Store\")\n5. Select a category\n\n*Tips:*\n• Amounts can be formatted as \"25.50\" or \"$25.50\"\n• You can put the name before or after the amount\n• Type \"/back\" at any time to return to main menu"

def cancelledReply : Str := str "❌ Cancelled. Type \"new\" to add a transaction."

def invalidSelectionReply : Str :=
  str "❌ Invalid selection. Please reply with a number from the list."

/-- formatCurrency (Intl.NumberFormat en-US USD) modelled on exact rationals:
dollar sign, thousands grouping, two fraction digits with round-half-up on
the cent.  Display-only; no claim depends on its exact text. -/
def commaGroupAux : ℕ → Str → Str
  | 0, s => s
  | fuel + 1, s =>
    if s.length ≤ 3 then s
    else s.take 3 ++ [','] ++ commaGroupAux fuel (s.drop 3)

def formatCurrency (amount : ℚ) : Str :=
  let neg := amount < 0
  let a := |amount|
  let cents : ℕ := (a * 100 + 1 / 2).floor.toNat
  let ipart := cents / 100
  let fpart := cents % 100
  let grouped := (commaGroupAux ((natRepr ipart).length + 1) (natRepr ipart).reverse).reverse
  (if neg then ['-'] else []) ++ ['$'] ++ grouped ++ ['.']
    ++ (if fpart < 10 then ['0'] else []) ++ natRepr fpart

/-- parser.ts formatTransactionList.  toLocaleDateString is modelled as the
raw date string and a NaN amount renders as $NaN, as in the source\x27s
degenerate cases; both are display-only. -/
def formatTransactionLine (i : ℕ) (t : Transaction) : Str :=
  let a := jsParseFloat t.amount
  let sign := if (a.getD 0) < 0 ∧ a.isSome then [] else ['+']
  let amountStr := match a with
    | some q => formatCurrency q
    | none => str "$NaN"
  natRepr (i + 1) ++ str ". " ++ sign ++ amountStr ++ str " - " ++ t.name
    ++ str "\n   " ++ t.date ++ str " | "
    ++ (match t.category with | some c => c.name | none => str "Uncategorized")

def formatTransactionList (transactions : List Transaction) : Str :=
  if transactions.length = 0 then str "No transactions found."
  else
    str "📋 *Recent Transactions*\n\n"
    ++ ((transactions.enum.map (fun p => formatTransactionLine p.1 p.2)).intersperse
         (str "\n\n")).flatten

/-- bot.ts handleSelectAccount selection block: 1-based index into the list
via parseInt first, else exact case-insensitive name match. -/
def resolveAccount (accounts : List Account) (text : Str) : Option Account :=
  match jsParseInt text with
  | some n =>
    if 0 ≤ n - 1 ∧ n - 1 < (accounts.length : ℤ) then accounts.get? (n - 1).toNat
    else accounts.find? (fun a => jsToLower a.name = jsToLower text)
  | none => accounts.find? (fun a => jsToLower a.name = jsToLower text)

/-- bot.ts handleSelectCategory selection block, same logic over
categories. -/
def resolveCategory (categories : List Category) (text : Str) : Option Category :=
  match jsParseInt text with
  | some n =>
    if 0 ≤ n - 1 ∧ n - 1 < (categories.length : ℤ) then categories.get? (n - 1).toNat
    else categories.find? (fun c => jsToLower c.name = jsToLower text)
  | none => categories.find? (fun c => jsToLower c.name = jsToLower text)

/-- bot.ts listAccounts. -/
def listAccounts (bot : SureBot) : Str :=
  if bot.accounts.length = 0 then str "❌ No accounts found."
  else
    str "🏦 *Your Accounts:*\n\n"
    ++ (bot.accounts.enum.map
         (fun p => natRepr (p.1 + 1) ++ str ". " ++ p.2.name
           ++ (match p.2.balance with
               | some b => if b = [] then [] else str " - " ++ b
               | none => [])
           ++ str "\n")).flatten

/-- bot.ts handleIdle. -/
def handleIdle (bot : SureBot) (env : BotEnv) (m : SessionStore) (userId : Str)
    (message : Str) : BotResult :=
  let text := jsToLower (jsTrim message)
  if text = str "new" ∨ text = str "/add" ∨ text = str "add" then
    if bot.accounts.length = 0 then
      { reply := str "❌ No accounts found. Please create an account in Sure.am first.",
        sessions := m, submitted := none }
    else
      let r := updateSession m userId { state := some .SELECT_TYPE } env.now
      { reply := str "💰 *New Transaction*\n\n1. Expense\n2. Income\n\nReply with 1 or 2.\n\n_Type \"/back\" to return to main menu._",
        sessions := r.2, submitted := none }
  else if text = str "/recent" ∨ text = str "recent" then
    { reply := match env.recentOutcome with
        | .ok ts => formatTransactionList ts
        | .error e => str "❌ Failed to fetch transactions: " ++ e,
      sessions := m, submitted := none }
  else if text = str "/accounts" ∨ text = str "accounts" then
    { reply := listAccounts bot, sessions := m, submitted := none }
  else
    { reply := getMainMenu, sessions := m, submitted := none }

/-- bot.ts handleSelectType. -/
def handleSelectType (bot : SureBot) (env : BotEnv) (m : SessionStore) (userId : Str)
    (message : Str) : BotResult :=
  let text := jsToLower (jsTrim message)
  if text = str "1" ∨ text = str "expense" ∨ text = str "expenses" then
    let r := updateSession m userId
      { state := some .SELECT_ACCOUNT, transactionType := some .expense,
        accounts := some bot.accounts } env.now
    { reply := formatAccountsList bot.accounts, sessions := r.2, submitted := none }
  else if text = str "2" ∨ text = str "income" then
    let r := updateSession m userId
      { state := some .SELECT_ACCOUNT, transactionType := some .income,
        accounts := some bot.accounts } env.now
    { reply := formatAccountsList bot.accounts, sessions := r.2, submitted := none }
  else
    { reply := str "Please reply with *1* (Expense) or *2* (Income).",
      sessions := m, submitted := none }

/-- bot.ts handleSelectAccount: resolve against the session snapshot when
present, falling back to the live cache (session.accounts || this.accounts). -/
def handleSelectAccount (bot : SureBot) (env : BotEnv) (m : SessionStore) (userId : Str)
    (message : Str) : BotResult :=
  let session := (getSession m userId env.now).1
  let text := jsTrim message
  let accounts := session.accounts.getD bot.accounts
  match resolveAccount accounts text with
  | none => { reply := invalidSelectionReply, sessions := m, submitted := none }
  | some selectedAccount =>
    let prompt := if session.transactionType = some .expense
      then str "📝 Enter amount and name.\n\nExample: \x6025.50 Trader Joe\x27s\x60"
      else str "📝 Enter amount and name.\n\nExample: \x601500 Salary\x60"
    let r := updateSession m userId
      { state := some .ENTER_DETAILS, accountId := some selectedAccount.id } env.now
    { reply := prompt ++ str "\n\nAccount: *" ++ selectedAccount.name
        ++ str "*\n\n_Type \"/back\" to return to main menu._",
      sessions := r.2, submitted := none }

/-- bot.ts handleEnterDetails. -/
def handleEnterDetails (bot : SureBot) (env : BotEnv) (m : SessionStore) (userId : Str)
    (message : Str) : BotResult :=
  match parseTransactionDetails message with
  | none =>
    { reply := str "❌ Couldn\x27t parse that. Please use format:\n\x6025.50 Store Name\x60",
      sessions := m, submitted := none }
  | some parsed =>
    let r := updateSession m userId
      { state := some .SELECT_CATEGORY, amount := some parsed.amount,
        name := some parsed.name, categories := some bot.categories } env.now
    { reply := formatCategoriesList bot.categories, sessions := r.2, submitted := none }

/-- bot.ts handleSelectCategory: resolves against the live category cache
(this.categories), not the session snapshot; signs the stored amount by
transaction type; submits; resets the session only on success.  The
source\x27s non-null assertions on amount, name and accountId are modelled
with default values, unreachable in the states that call this. -/
def handleSelectCategory (bot : SureBot) (env : BotEnv) (m : SessionStore) (userId : Str)
    (message : Str) : BotResult :=
  let session := (getSession m userId env.now).1
  let text := jsTrim message
  match resolveCategory bot.categories text with
  | none => { reply := invalidSelectionReply, sessions := m, submitted := none }
  | some selectedCategory =>
    let amount := if session.transactionType = some .expense
      then -|session.amount.getD 0| else |session.amount.getD 0|
    let account : Option Account := match session.accountId with
      | some aid => bot.accounts.find? (fun a => a.id = aid)
      | none => none
    let accountName := (account.map (fun a => a.name)).getD (str "Unknown")
    let params : CreateTransactionParams :=
      { account_id := session.accountId.getD [],
        date := env.today,
        amount := amount,
        name := session.name.getD [],
        category_id := selectedCategory.id,
        nature := session.transactionType }
    match env.submitOutcome params with
    | .ok _ =>
      let m1 := resetSession m userId env.now
      let sign := if amount < 0 then str "-" else str "+"
      { reply := str "✅ *Transaction added!*\n\n" ++ sign ++ formatCurrency |amount|
          ++ str " - " ++ session.name.getD [] ++ str "\nCategory: "
          ++ selectedCategory.name ++ str "\nAccount: " ++ accountName
          ++ str "\n\nType \"new\" to add another.",
        sessions := m1, submitted := some params }
    | .error e =>
      { reply := str "❌ Failed to create transaction. Please try again.\n\nError: " ++ e,
        sessions := m, submitted := some params }

/-- bot.ts handleMessage: load or create the session, handle the global
commands (trimmed, case-insensitive) before state dispatch. -/
def handleMessage (bot : SureBot) (env : BotEnv) (m : SessionStore) (userId : Str)
    (message : Str) : BotResult :=
  let g := getSession m userId env.now
  let text := jsToLower (jsTrim message)
  if text = str "/cancel" ∨ text = str "cancel" then
    { reply := cancelledReply, sessions := resetSession g.2 userId env.now,
      submitted := none }
  else if text = str "/back" ∨ text = str "back" ∨ text = str "menu" then
    { reply := getMainMenu, sessions := resetSession g.2 userId env.now,
      submitted := none }
  else if text = str "/help" ∨ text = str "help" then
    { reply := getHelpMessage, sessions := g.2, submitted := none }
  else
    match g.1.state with
    | .IDLE => handleIdle bot env g.2 userId message
    | .SELECT_TYPE => handleSelectType bot env g.2 userId message
    | .SELECT_ACCOUNT => handleSelectAccount bot env g.2 userId message
    | .ENTER_DETAILS => handleEnterDetails bot env g.2 userId message
    | .SELECT_CATEGORY => handleSelectCategory bot env g.2 userId message

/-- The two session containers alive in the process: the state.ts module map
the Bot reads and writes, and the SessionManager\x27s private map that
index.ts constructs.  index.ts never inserts into the manager\x27s map; it
only starts its cleanup interval. -/
structure SystemState where
  engineSessions : SessionStore
  managerSessions : List (Str × UserSession)
deriving DecidableEq

def sessionTimeoutDefault : ℤ := 30 * 60 * 1000

/-- One tick of the periodic expiry sweep as index.ts wires it: the interval
started by sessionManager.startCleanupInterval runs clearExpiredSessions on
the SessionManager\x27s own map only. -/
def runExpirySweep (sys : SystemState) (now : ℤ) : SystemState :=
  { sys with
    managerSessions := clearExpiredSessions sessionTimeoutDefault sys.managerSessions now }

/-- Characters a regex fragment can consume; used to bound what a full match
of the number tokens may contain. -/
def reChars : RE → Char → Prop
  | .eps, _ => False
  | .lit c, x => x = c
  | .cls cc, x => ccMatch cc x = true
  | .seq a b, x => reChars a x ∨ reChars b x
  | .opt a, x => reChars a x
  | .plusG cc, x => ccMatch cc x = true
  | .plusL cc, x => ccMatch cc x = true

/-- Fixtures for the concrete evaluations below. -/
def accChecking : Account :=
  { id := str "a1", name := str "Checking", account_type := str "depository" }

def accSavings : Account :=
  { id := str "a2", name := str "Savings", account_type := str "depository" }

def catSalary : Category :=
  { id := str "c1", name := str "Salary", classification := str "income" }

def catFood : Category :=
  { id := str "c2", name := str "Food", classification := str "expense" }

def catRent : Category :=
  { id := str "c3", name := str "Rent", classification := str "expense" }

def fixtureBot : SureBot :=
  { categories := [catSalary, catFood], accounts := [accChecking, accSavings] }

def fixtureEnvOk : BotEnv :=
  { now := 1000, today := str "2026-10-11",
    submitOutcome := fun _ => .ok (), recentOutcome := .error (str "down") }

def fixtureEnvFail : BotEnv :=
  { now := 1000, today := str "2026-10-11",
    submitOutcome := fun _ => .error (str "Unprocessable"),
    recentOutcome := .error (str "down") }

/-- A session mid-flow at SELECT_CATEGORY, with a categories snapshot that
differs from the live cache of fixtureBot. -/
def fixtureSessionSelCat : UserSession :=
  { state := .SELECT_CATEGORY, transactionType := some .expense,
    accountId := some (str "a1"), amount := some 25, name := some (str "Coffee"),
    categories := some [catRent], accounts := some [accChecking, accSavings],
    createdAt := 0, lastActivityAt := 0 }


/-- Decimal amount token as the four patterns accept it: optional dollar
sign, optional minus, integer digits, optional dot with decimal digits. -/
def renderNum (dollar neg : Bool) (ip dp : Str) : Str :=
  (if dollar then ['$'] else []) ++ (if neg then ['-'] else [])
    ++ ip ++ (if dp = [] then [] else '.' :: dp)

/-- Magnitude of such a token. -/
def numValue (ip dp : Str) : ℚ :=
  (digitsVal ip : ℚ) + (digitsVal dp : ℚ) / (10 ^ dp.length)

/-- Well-formed number token: nonempty digit string, decimals absent or one
or two digits. -/
def wfNumB (ip dp : Str) : Bool :=
  !ip.isEmpty && ip.all isDigitChar
    && (dp.isEmpty || ((dp.length ≤ 2) && dp.all isDigitChar))

/-- Well-formed separator: nonempty whitespace. -/
def wfSepB (sep : Str) : Bool := !sep.isEmpty && sep.all isJsWs

/-- Well-formed description: nonempty, at most 255 characters, free of line
terminators and of the sanitised characters, not starting or ending in
whitespace. -/
def wfNameB (nm : Str) : Bool :=
  !nm.isEmpty && nm.length ≤ 255
    && nm.all (fun c => dotMatch c && !(c ∈ sanitizeChars))
    && !(isJsWs (nm.headD 'x')) && !(isJsWs (nm.getLastD 'x'))


theorem mapGet_set_self {α : Type} (m : List (Str × α)) (k : Str) (v : α) :
    mapGet (mapSet m k v) k = some v := by
  induction m with
  | nil =>
    show mapGet [(k, v)] k = some v
    unfold mapGet
    rw [List.find?_cons_of_pos _ (by simp)]
    rfl
  | cons p ps ih =>
    unfold mapSet
    by_cases h : p.1 = k
    · rw [if_pos h]
      unfold mapGet
      rw [List.find?_cons_of_pos _ (by simp)]
      rfl
    · rw [if_neg h]
      unfold mapGet at ih ⊢
      rw [List.find?_cons_of_neg _ (by simp [h])]
      exact ih

theorem mapGet_set_other {α : Type} (m : List (Str × α)) (k k' : Str) (v : α)
    (hne : ¬(k' = k)) : mapGet (mapSet m k v) k' = mapGet m k' := by
  have hkk : ¬(k = k') := fun h => hne h.symm
  induction m with
  | nil =>
    show mapGet [(k, v)] k' = mapGet [] k'
    unfold mapGet
    rw [List.find?_cons_of_neg _ (by simp [hkk])]
  | cons p ps ih =>
    unfold mapSet
    by_cases h : p.1 = k
    · rw [if_pos h]
      unfold mapGet
      rw [List.find?_cons_of_neg _ (by simp [hkk]),
        List.find?_cons_of_neg _ (by simp [h, hkk])]
    · rw [if_neg h]
      by_cases h2 : p.1 = k'
      · unfold mapGet
        rw [List.find?_cons_of_pos _ (by simp [h2]),
          List.find?_cons_of_pos _ (by simp [h2])]
      · unfold mapGet at ih ⊢
        rw [List.find?_cons_of_neg _ (by simp [h2]),
          List.find?_cons_of_neg _ (by simp [h2])]
        exact ih

theorem dropWhile_eq_self_of_head {p : Char → Bool} {s : Str}
    (h : ∀ c, s.head? = some c → p c = false) : s.dropWhile p = s := by
  cases s with
  | nil => rfl
  | cons a t => simp [List.dropWhile_cons, h a rfl]

theorem jsTrim_eq_self {s : Str} (h1 : ∀ c, s.head? = some c → isJsWs c = false)
    (h2 : ∀ c, s.getLast? = some c → isJsWs c = false) : jsTrim s = s := by
  unfold jsTrim
  rw [dropWhile_eq_self_of_head h1,
    dropWhile_eq_self_of_head (fun c hc => h2 c (by rwa [List.head?_reverse] at hc)),
    List.reverse_reverse]

theorem mem_wsChars_props :
    ∀ c ∈ wsChars, isDigitChar c = false ∧ ¬(c = '-') ∧ ¬(c = '.') ∧ ¬(c = '$')
      ∧ ¬(c ∈ sanitizeChars) := by decide

theorem isJsWs_not_digit {c : Char} (h : isJsWs c = true) : isDigitChar c = false := by
  have hm : c ∈ wsChars := by simpa [isJsWs] using h
  exact (mem_wsChars_props c hm).1

theorem isDigitChar_not_ws {c : Char} (h : isDigitChar c = true) : isJsWs c = false := by
  cases hw : isJsWs c with
  | false => rfl
  | true => rw [isJsWs_not_digit hw] at h; cases h

theorem digitChar_spec {n : ℕ} (h : n < 10) :
    isDigitChar (digitChar n) = true ∧ digitVal (digitChar n) = n := by
  interval_cases n <;> exact ⟨by decide, by decide⟩

theorem digitsVal_append (a : Str) (c : Char) :
    digitsVal (a ++ [c]) = 10 * digitsVal a + digitVal c := by
  simp [digitsVal, List.foldl_append]

theorem natReprAux_spec : ∀ fuel n, n < fuel →
    natReprAux fuel n ≠ [] ∧ (∀ c ∈ natReprAux fuel n, isDigitChar c = true) ∧
      digitsVal (natReprAux fuel n) = n := by
  intro fuel
  induction fuel with
  | zero => omega
  | succ fuel ih =>
    intro n hn
    by_cases h10 : n < 10
    · refine ⟨by simp [natReprAux, h10], ?_, ?_⟩
      · intro c hc
        simp [natReprAux, h10] at hc
        subst hc
        exact (digitChar_spec h10).1
      · have h2 := (digitChar_spec h10).2
        simp [natReprAux, h10, digitsVal, h2]
    · have hdivlt : n / 10 < n := Nat.div_lt_self (by omega) (by omega)
      have hdiv : n / 10 < fuel := by omega
      obtain ⟨hne, hdig, hval⟩ := ih (n / 10) hdiv
      refine ⟨by simp [natReprAux, h10], ?_, ?_⟩
      · intro c hc
        simp only [natReprAux, if_neg h10] at hc
        rcases List.mem_append.mp hc with hc | hc
        · exact hdig c hc
        · simp at hc
          subst hc
          exact (digitChar_spec (Nat.mod_lt _ (by omega))).1
      · simp only [natReprAux, if_neg h10]
        rw [digitsVal_append, hval, (digitChar_spec (Nat.mod_lt _ (by omega))).2]
        omega

theorem natRepr_spec (n : ℕ) :
    natRepr n ≠ [] ∧ (∀ c ∈ natRepr n, isDigitChar c = true) ∧
      digitsVal (natRepr n) = n :=
  natReprAux_spec (n + 1) n (Nat.lt_succ_self n)

theorem takeWhile_eq_self_of_all {p : Char → Bool} :
    ∀ {l : Str}, (∀ c ∈ l, p c = true) → l.takeWhile p = l := by
  intro l
  induction l with
  | nil => intro _; rfl
  | cons a t ih =>
    intro h
    simp [List.takeWhile_cons, h a (by simp), ih fun c hc => h c (by simp [hc])]

theorem jsParseInt_natRepr (n : ℕ) : jsParseInt (natRepr n) = some (n : ℤ) := by
  obtain ⟨hne, hdig, hval⟩ := natRepr_spec n
  have hdec : decDigitsOf (natRepr n) = some n := by
    unfold decDigitsOf
    rw [takeWhile_eq_self_of_all hdig]
    simp [hne, hval]
  cases hrep : natRepr n with
  | nil => exact absurd hrep hne
  | cons c rest =>
    rw [hrep] at hdec hdig
    have hdrop : List.dropWhile isJsWs (c :: rest) = c :: rest :=
      dropWhile_eq_self_of_head fun x hx =>
        isDigitChar_not_ws (hdig x (List.mem_of_mem_head? hx))
    have hcd : isDigitChar c = true := hdig c (by simp)
    have hc1 : ¬(c = '-') := fun h => by subst h; simp [isDigitChar] at hcd
    have hc2 : ¬(c = '+') := fun h => by subst h; simp [isDigitChar] at hcd
    have hcore : jsParseIntCore (c :: rest) = some n := by
      cases rest with
      | nil => simpa [jsParseIntCore] using hdec
      | cons c2 rest2 =>
        have hcd2 : isDigitChar c2 = true := hdig c2 (by simp)
        have hnx : ¬(c = '0' ∧ (c2 = 'x' ∨ c2 = 'X')) := by
          rintro ⟨_, h | h⟩ <;> (subst h; simp [isDigitChar] at hcd2)
        simpa [jsParseIntCore, hnx] using hdec
    unfold jsParseInt
    rw [hdrop]
    simp [hc1, hc2, hcore]

theorem find?_eq_of_first {α : Type} (p : α → Bool) :
    ∀ (l : List α) (k : ℕ) (hk : k < l.length),
      (∀ j (hj : j < k), p (l.get ⟨j, by omega⟩) = false) →
      p (l.get ⟨k, hk⟩) = true → l.find? p = some (l.get ⟨k, hk⟩) := by
  intro l
  induction l with
  | nil => intro k hk; simp at hk
  | cons a t ih =>
    intro k hk hbefore hp
    cases k with
    | zero =>
      rw [List.find?_cons_of_pos _ (by simpa using hp)]
      simp
    | succ k' =>
      have ha : p a = false := hbefore 0 (Nat.succ_pos k')
      rw [List.find?_cons_of_neg _ (by simp [ha])]
      exact ih k' (by simpa using hk)
        (fun j hj => hbefore (j + 1) (by omega)) hp

/-- Claim C8 counterexample: the RateLimiter constructor accepts
maxAttempts = 0 and windowMs = -1 (both violating the claimed preconditions)
without rejecting. -/
theorem c8_counterexample_no_validation :
    rateLimiterInit (some 0) (some (-1)) = .ok { maxAttempts := 0, windowMs := -1 }
      ∧ (0 : ℤ) < 1 ∧ (-1 : ℤ) ≤ 0 :=
  ⟨rfl, by decide, by decide⟩

/-- Claim C8 (amended): constructing a RateLimiter never fails; every
argument pair is accepted, with defaults 5 and 60000 for omitted
arguments. -/
theorem c8_constructor_total (maxAttemptsArg windowMsArg : Option ℤ) :
    rateLimiterInit maxAttemptsArg windowMsArg
      = .ok { maxAttempts := maxAttemptsArg.getD 5, windowMs := windowMsArg.getD 60000 } :=
  rfl

/-- Claim C1: the periodic expiry sweep wired up in index.ts runs on the
SessionManager\x27s own (never-populated) map and leaves the state.ts store
that handleMessage reads and writes untouched, so a session whose
lastActivityAt is older than the 30-minute timeout is still returned by
getSession after a sweep. -/
theorem c1_sweep_misses_engine_store :
    (∀ (sys : SystemState) (now : ℤ),
      (runExpirySweep sys now).engineSessions = sys.engineSessions)
    ∧ (sessionTimeoutDefault
        < (sessionTimeoutDefault + 1) - fixtureSessionSelCat.lastActivityAt
      ∧ (getSession
          (runExpirySweep
            { engineSessions := [(str "u", fixtureSessionSelCat)],
              managerSessions := [] }
            (sessionTimeoutDefault + 1)).engineSessions
          (str "u") (sessionTimeoutDefault + 1)).1 = fixtureSessionSelCat) :=
  ⟨fun _ _ => rfl, by decide, by decide⟩

/-- Claim C7: cancel or /cancel (case-insensitive after trimming), sent from
any non-IDLE state, replaces the session with a fresh IDLE session (clearing
transactionType, accountId, amount and name) and replies with the
cancellation notice. -/
theorem c7_cancel_resets (bot : SureBot) (env : BotEnv) (m : SessionStore)
    (u msg : Str) (s : UserSession) (hs : mapGet m u = some s)
    (_hstate : ¬(s.state = .IDLE))
    (hmsg : jsToLower (jsTrim msg) = str "cancel" ∨ jsToLower (jsTrim msg) = str "/cancel") :
    (handleMessage bot env m u msg).reply = cancelledReply
    ∧ mapGet (handleMessage bot env m u msg).sessions u = some (freshSession env.now)
    ∧ (freshSession env.now).state = .IDLE
    ∧ (freshSession env.now).transactionType = none
    ∧ (freshSession env.now).accountId = none
    ∧ (freshSession env.now).amount = none
    ∧ (freshSession env.now).name = none := by
  have hcond : jsToLower (jsTrim msg) = str "/cancel" ∨ jsToLower (jsTrim msg) = str "cancel" :=
    hmsg.symm
  unfold handleMessage
  simp only [getSession, hs, if_pos hcond]
  simp [resetSession, mapGet_set_self, freshSession]

/-- Witness for c7_cancel_resets at a concrete mid-flow session. -/
theorem c7_cancel_resets_witness :
    (handleMessage fixtureBot fixtureEnvOk [(str "u", fixtureSessionSelCat)]
      (str "u") (str "  CANCEL ")).reply = cancelledReply
    ∧ mapGet (handleMessage fixtureBot fixtureEnvOk [(str "u", fixtureSessionSelCat)]
        (str "u") (str "  CANCEL ")).sessions (str "u") = some (freshSession 1000) := by
  have h := c7_cancel_resets fixtureBot fixtureEnvOk [(str "u", fixtureSessionSelCat)]
    (str "u") (str "  CANCEL ") fixtureSessionSelCat (by decide) (by decide)
    (Or.inl (by decide))
  exact ⟨h.1, h.2.1⟩

/-- Claim C6: in SELECT_CATEGORY, if the submission collaborator fails, the
handler replies with the failure message and the session store is exactly
what it was before the attempt, so the same session (state, transactionType,
accountId, amount, name) is still in place. -/
theorem c6_submit_failure_preserves_session (bot : SureBot) (env : BotEnv)
    (m : SessionStore) (u msg : Str) (s : UserSession) (c : Category) (e : Str)
    (hs : mapGet m u = some s)
    (hstate : s.state = .SELECT_CATEGORY)
    (hnc : ¬(jsToLower (jsTrim msg) ∈
      [str "/cancel", str "cancel", str "/back", str "back", str "menu",
       str "/help", str "help"]))
    (hres : resolveCategory bot.categories (jsTrim msg) = some c)
    (hfail : env.submitOutcome
      { account_id := s.accountId.getD [],
        date := env.today,
        amount := if s.transactionType = some .expense
          then -|s.amount.getD 0| else |s.amount.getD 0|,
        name := s.name.getD [],
        category_id := c.id,
        nature := s.transactionType } = .error e) :
    (handleMessage bot env m u msg).sessions = m
    ∧ mapGet (handleMessage bot env m u msg).sessions u = some s
    ∧ (handleMessage bot env m u msg).reply
        = str "❌ Failed to create transaction. Please try again.\n\nError: " ++ e := by
  simp only [List.mem_cons, List.mem_singleton, not_or] at hnc
  obtain ⟨h1, h2, h3, h4, h5, h6, h7⟩ := hnc
  unfold handleMessage
  simp only [getSession, hs, hstate]
  rw [if_neg (by tauto), if_neg (by tauto), if_neg (by tauto)]
  unfold handleSelectCategory
  simp only [getSession, hs, hres, hfail]
  exact ⟨by trivial, by simp [hs], by trivial⟩

/-- Witness for c6_submit_failure_preserves_session: a concrete failing
submission from the fixture session. -/
theorem c6_submit_failure_witness :
    (handleMessage fixtureBot fixtureEnvFail [(str "u", fixtureSessionSelCat)]
      (str "u") (str "1")).sessions = [(str "u", fixtureSessionSelCat)]
    ∧ mapGet (handleMessage fixtureBot fixtureEnvFail
        [(str "u", fixtureSessionSelCat)] (str "u") (str "1")).sessions (str "u")
        = some fixtureSessionSelCat := by
  have h := c6_submit_failure_preserves_session fixtureBot fixtureEnvFail
    [(str "u", fixtureSessionSelCat)] (str "u") (str "1") fixtureSessionSelCat
    catSalary (str "Unprocessable") (by decide) (by decide) (by decide)
    (by decide) rfl
  exact ⟨h.1, h.2.1⟩

theorem resolveAccount_index (accounts : List Account) (text : Str) (k : ℕ)
    (hk : k < accounts.length) (hp : jsParseInt text = some ((k : ℤ) + 1)) :
    resolveAccount accounts text = some (accounts.get ⟨k, hk⟩) := by
  unfold resolveAccount
  simp only [hp]
  rw [if_pos (by constructor <;> [omega; (push_cast; omega)])]
  have ht : ((k : ℤ) + 1 - 1).toNat = k := by omega
  rw [ht]
  exact List.get?_eq_get hk

theorem resolveAccount_by_name (accounts : List Account) (text : Str)
    (h : ∀ n : ℤ, jsParseInt text = some n → n < 1 ∨ (accounts.length : ℤ) < n) :
    resolveAccount accounts text
      = accounts.find? (fun a => jsToLower a.name = jsToLower text) := by
  unfold resolveAccount
  cases hp : jsParseInt text with
  | none => rfl
  | some n =>
    simp only [hp]
    rw [if_neg (by rcases h n hp with h' | h' <;> omega)]

theorem resolveCategory_index (categories : List Category) (text : Str) (k : ℕ)
    (hk : k < categories.length) (hp : jsParseInt text = some ((k : ℤ) + 1)) :
    resolveCategory categories text = some (categories.get ⟨k, hk⟩) := by
  unfold resolveCategory
  simp only [hp]
  rw [if_pos (by constructor <;> [omega; (push_cast; omega)])]
  have ht : ((k : ℤ) + 1 - 1).toNat = k := by omega
  rw [ht]
  exact List.get?_eq_get hk

theorem resolveCategory_by_name (categories : List Category) (text : Str)
    (h : ∀ n : ℤ, jsParseInt text = some n → n < 1 ∨ (categories.length : ℤ) < n) :
    resolveCategory categories text
      = categories.find? (fun c => jsToLower c.name = jsToLower text) := by
  unfold resolveCategory
  cases hp : jsParseInt text with
  | none => rfl
  | some n =>
    simp only [hp]
    rw [if_neg (by rcases h n hp with h' | h' <;> omega)]

/-- Claim C10: in the two selection states, any input whose parseInt prefix
parse yields an in-range 1-based index selects that entry of the list even
when trailing non-numeric text follows; the case-insensitive name match runs
only when the parsed index is NaN or out of range; consequently input equal
to the name of an item, when that name parses to an in-range index, selects
the indexed entry, never the item by name. -/
theorem c10_index_beats_name :
    (∀ (accounts : List Account) (text : Str) (k : ℕ) (hk : k < accounts.length),
      jsParseInt text = some ((k : ℤ) + 1) →
      resolveAccount accounts text = some (accounts.get ⟨k, hk⟩))
    ∧ (∀ (categories : List Category) (text : Str) (k : ℕ) (hk : k < categories.length),
      jsParseInt text = some ((k : ℤ) + 1) →
      resolveCategory categories text = some (categories.get ⟨k, hk⟩))
    ∧ (∀ (accounts : List Account) (text : Str),
      (∀ n : ℤ, jsParseInt text = some n → n < 1 ∨ (accounts.length : ℤ) < n) →
      resolveAccount accounts text
        = accounts.find? (fun a => jsToLower a.name = jsToLower text))
    ∧ (∀ (categories : List Category) (text : Str),
      (∀ n : ℤ, jsParseInt text = some n → n < 1 ∨ (categories.length : ℤ) < n) →
      resolveCategory categories text
        = categories.find? (fun c => jsToLower c.name = jsToLower text))
    ∧ (∀ (accounts : List Account) (a : Account) (k : ℕ) (hk : k < accounts.length),
      a ∈ accounts → jsParseInt a.name = some ((k : ℤ) + 1) →
      resolveAccount accounts a.name = some (accounts.get ⟨k, hk⟩))
    ∧ (∀ (categories : List Category) (c : Category) (k : ℕ) (hk : k < categories.length),
      c ∈ categories → jsParseInt c.name = some ((k : ℤ) + 1) →
      resolveCategory categories c.name = some (categories.get ⟨k, hk⟩)) :=
  ⟨resolveAccount_index, resolveCategory_index,
   resolveAccount_by_name, resolveCategory_by_name,
   fun accounts a k hk _ hp => resolveAccount_index accounts a.name k hk hp,
   fun categories c k hk _ hp => resolveCategory_index categories c.name k hk hp⟩

/-- Witness for c10_index_beats_name: input 1abc parseInt-parses to 1 and
selects the first account despite the trailing text; input zzz has no integer
prefix and falls through to the name matcher; a category literally named 2 in
a two-element list selects the second element, not itself. -/
theorem c10_index_beats_name_witness :
    resolveAccount [accChecking, accSavings] (str "1abc") = some accChecking
    ∧ resolveAccount [accChecking, accSavings] (str "Savings")
        = [accChecking, accSavings].find?
            (fun a => jsToLower a.name = jsToLower (str "Savings"))
    ∧ resolveCategory
        [{ id := str "n1", name := str "2", classification := str "expense" }, catFood]
        (str "2") = some catFood := by
  refine ⟨?_, ?_, ?_⟩
  · exact c10_index_beats_name.1 [accChecking, accSavings] (str "1abc") 0
      (by decide) (by decide)
  · exact c10_index_beats_name.2.2.1 [accChecking, accSavings] (str "Savings")
      (by decide)
  · exact c10_index_beats_name.2.1
      [{ id := str "n1", name := str "2", classification := str "expense" }, catFood]
      (str "2") 1 (by decide) (by decide)

theorem isAllowed_reject_keeps_state (cfg : RateLimiterConfig)
    (st : RateLimiterAttempts) (u : Str) (now : ℤ)
    (h : (isAllowed cfg st u now).1 = false) : (isAllowed cfg st u now).2 = st := by
  simp only [isAllowed] at h ⊢
  split at h
  · split
    · rfl
    · rename_i h1 h2
      exact absurd h1 h2
  · simp at h

theorem isAllowed_admit_state (cfg : RateLimiterConfig)
    (st : RateLimiterAttempts) (u : Str) (now : ℤ)
    (h : (isAllowed cfg st u now).1 = true) :
    (isAllowed cfg st u now).2
      = mapSet st u
          (((mapGet st u).getD []).filter (fun x => now - x < cfg.windowMs) ++ [now]) := by
  simp only [isAllowed] at h ⊢
  split at h
  · simp at h
  · split
    · rename_i h1 h2
      exact absurd h2 h1
    · rfl

theorem isAllowed_other_key (cfg : RateLimiterConfig) (st : RateLimiterAttempts)
    (u v : Str) (t : ℤ) (hne : ¬(v = u)) :
    mapGet (isAllowed cfg st u t).2 v = mapGet st v := by
  cases hok : (isAllowed cfg st u t).1
  · rw [isAllowed_reject_keeps_state cfg st u t hok]
  · rw [isAllowed_admit_state cfg st u t hok]
    exact mapGet_set_other st u v _ hne

theorem filter_window_mono (l : List ℤ) (w t q : ℤ) (htq : t ≤ q) :
    (l.filter (fun x => t - x < w)).filter (fun x => q - x < w)
      = l.filter (fun x => q - x < w) := by
  rw [List.filter_filter]
  refine List.filter_congr fun x _ => ?_
  by_cases h : q - x < w
  · have h2 : t - x < w := by omega
    simp [h, h2]
  · simp [h]

theorem isAllowed_step_filter (cfg : RateLimiterConfig) (st : RateLimiterAttempts)
    (u : Str) (t q : ℤ) (htq : t ≤ q) :
    ((mapGet (isAllowed cfg st u t).2 u).getD []).filter (fun x => q - x < cfg.windowMs)
      = ((mapGet st u).getD []).filter (fun x => q - x < cfg.windowMs)
        ++ (if (isAllowed cfg st u t).1 = true
            then [t].filter (fun x => q - x < cfg.windowMs) else []) := by
  cases hok : (isAllowed cfg st u t).1
  · rw [isAllowed_reject_keeps_state cfg st u t hok]
    simp
  · rw [isAllowed_admit_state cfg st u t hok, mapGet_set_self]
    simp only [Option.getD_some, List.filter_append, hok, if_pos]
    rw [filter_window_mono _ _ _ _ htq]

theorem trace_filter (cfg : RateLimiterConfig) (q : ℤ) :
    ∀ (events : List (Str × ℤ)) (st : RateLimiterAttempts) (u : Str),
      (∀ e ∈ events, e.2 ≤ q) →
      ((mapGet (runTrace cfg st events) u).getD []).filter (fun x => q - x < cfg.windowMs)
        = ((mapGet st u).getD []).filter (fun x => q - x < cfg.windowMs)
          ++ (((admittedCalls cfg st events).filter (fun e => e.1 = u)).map
              (fun e => e.2)).filter (fun x => q - x < cfg.windowMs) := by
  intro events
  induction events with
  | nil => intro st u _; simp [runTrace, admittedCalls]
  | cons e rest ih =>
    intro st u hall
    obtain ⟨v, t⟩ := e
    have ht : t ≤ q := hall (v, t) (by simp)
    have hrest : ∀ x ∈ rest, x.2 ≤ q := fun x hx => hall x (by simp [hx])
    rw [show runTrace cfg st ((v, t) :: rest)
      = runTrace cfg (isAllowed cfg st v t).2 rest from rfl]
    rw [ih (isAllowed cfg st v t).2 u hrest]
    rw [show admittedCalls cfg st ((v, t) :: rest)
      = (if (isAllowed cfg st v t).1 then [(v, t)] else [])
        ++ admittedCalls cfg (isAllowed cfg st v t).2 rest from rfl]
    rw [List.filter_append, List.map_append, List.filter_append]
    by_cases hv : v = u
    · subst hv
      rw [isAllowed_step_filter cfg st v t q ht, List.append_assoc]
      congr 2
      cases hok : (isAllowed cfg st v t).1 <;> simp [hok]
    · rw [isAllowed_other_key cfg st v u t fun h => hv h.symm]
      have hz : ((List.filter (fun e => e.1 = u)
          (if (isAllowed cfg st v t).1 then [(v, t)] else [])).map
            (fun e => e.2)).filter (fun x => q - x < cfg.windowMs) = [] := by
        cases hok : (isAllowed cfg st v t).1 <;> simp [hok, hv]
      rw [hz, List.nil_append]

/-- Claim C4: replaying any call sequence whose times do not exceed the
current call time, isAllowed admits exactly when the number of previously
admitted attempts of the identity lying inside the trailing window is below
maxAttempts, and a rejected call leaves the attempt map untouched — nothing
is recorded for rejected calls, so they never extend the block. -/
theorem c4_isAllowed_window (cfg : RateLimiterConfig) (events : List (Str × ℤ))
    (u : Str) (now : ℤ) (hall : ∀ e ∈ events, e.2 ≤ now) :
    ((isAllowed cfg (runTrace cfg [] events) u now).1 = true ↔
      (((admittedTimesFor cfg events u).filter
          (fun x => now - x < cfg.windowMs)).length : ℤ) < cfg.maxAttempts)
    ∧ ((isAllowed cfg (runTrace cfg [] events) u now).1 = false →
      (isAllowed cfg (runTrace cfg [] events) u now).2 = runTrace cfg [] events) := by
  refine ⟨?_, isAllowed_reject_keeps_state cfg _ u now⟩
  have hkey := trace_filter cfg now events [] u hall
  have h0 : ((mapGet ([] : RateLimiterAttempts) u).getD []).filter
      (fun x => now - x < cfg.windowMs) = [] := rfl
  rw [h0, List.nil_append] at hkey
  simp only [isAllowed]
  rw [hkey]
  unfold admittedTimesFor
  split
  · rename_i hcond
    exact iff_of_false (by simp) (by omega)
  · rename_i hcond
    exact iff_of_true rfl (by omega)

/-- Witness for c4_isAllowed_window: three admitted calls at time 0 exhaust a
3-attempt window, so a call at time 500 is rejected. -/
theorem c4_isAllowed_window_witness :
    ((isAllowed ⟨3, 1000⟩
        (runTrace ⟨3, 1000⟩ [] [(str "u", 0), (str "u", 0), (str "u", 0)])
        (str "u") 500).1 = true ↔
      (((admittedTimesFor ⟨3, 1000⟩ [(str "u", 0), (str "u", 0), (str "u", 0)]
          (str "u")).filter (fun x => 500 - x < 1000)).length : ℤ) < 3)
    ∧ (isAllowed ⟨3, 1000⟩
        (runTrace ⟨3, 1000⟩ [] [(str "u", 0), (str "u", 0), (str "u", 0)])
        (str "u") 500).1 = false :=
  ⟨(c4_isAllowed_window ⟨3, 1000⟩ [(str "u", 0), (str "u", 0), (str "u", 0)]
    (str "u") 500 (by decide)).1, by decide⟩

theorem resolveAccount_mem (accounts : List Account) (text : Str) (a : Account)
    (h : resolveAccount accounts text = some a) : a ∈ accounts := by
  unfold resolveAccount at h
  cases hp : jsParseInt text with
  | none =>
    rw [hp] at h
    exact List.mem_of_find?_eq_some h
  | some n =>
    rw [hp] at h
    simp only at h
    split at h
    · exact List.get?_mem h
    · exact List.mem_of_find?_eq_some h

theorem resolveCategory_mem (categories : List Category) (text : Str) (c : Category)
    (h : resolveCategory categories text = some c) : c ∈ categories := by
  unfold resolveCategory at h
  cases hp : jsParseInt text with
  | none =>
    rw [hp] at h
    exact List.mem_of_find?_eq_some h
  | some n =>
    rw [hp] at h
    simp only at h
    split at h
    · exact List.get?_mem h
    · exact List.mem_of_find?_eq_some h

/-- Claim C3 counterexample: in SELECT_CATEGORY with a session snapshot
holding only Rent (id c3), input 1 submits the id of the first entry of the
live cache (Salary, id c1) — the snapshot is ignored, refuting snapshot-only
resolution. -/
theorem c3_counterexample_live_cache_used :
    ((handleMessage fixtureBot fixtureEnvOk [(str "u", fixtureSessionSelCat)]
        (str "u") (str "1")).submitted.map (fun p => p.category_id)) = some (str "c1")
    ∧ fixtureSessionSelCat.categories = some [catRent]
    ∧ catRent.id = str "c3"
    ∧ ¬(str "c1" = str "c3") := by
  refine ⟨by decide, by decide, by decide, by decide⟩

/-- Claim C3 (amended): selection resolves first as a 1-based index, then as
an exact case-insensitive name match (c10_index_beats_name), but the list
used differs between the states: SELECT_ACCOUNT resolves against the
session\x27s accounts snapshot when present (falling back to the live cache
when absent), so the chosen account always comes from that snapshot, whereas
SELECT_CATEGORY always resolves against the engine\x27s live category cache,
ignoring the categoriesSnapshot, and any resolved selection is an element of
the list it was resolved from. -/
theorem c3_amended_resolution_sources :
    (∀ (accounts : List Account) (text : Str) (a : Account),
      resolveAccount accounts text = some a → a ∈ accounts)
    ∧ (∀ (categories : List Category) (text : Str) (c : Category),
      resolveCategory categories text = some c → c ∈ categories)
    ∧ (∀ (bot : SureBot) (env : BotEnv) (m : SessionStore) (u msg : Str)
        (s : UserSession) (snap : List Account) (a : Account),
      mapGet m u = some s → s.state = .SELECT_ACCOUNT → s.accounts = some snap →
      ¬(jsToLower (jsTrim msg) ∈
        [str "/cancel", str "cancel", str "/back", str "back", str "menu",
         str "/help", str "help"]) →
      resolveAccount snap (jsTrim msg) = some a →
      a ∈ snap ∧ ∃ s2, mapGet (handleMessage bot env m u msg).sessions u = some s2
        ∧ s2.accountId = some a.id ∧ s2.state = .ENTER_DETAILS)
    ∧ (∀ (bot : SureBot) (env : BotEnv) (m : SessionStore) (u msg : Str)
        (s : UserSession) (c : Category),
      mapGet m u = some s → s.state = .SELECT_CATEGORY →
      ¬(jsToLower (jsTrim msg) ∈
        [str "/cancel", str "cancel", str "/back", str "back", str "menu",
         str "/help", str "help"]) →
      resolveCategory bot.categories (jsTrim msg) = some c →
      c ∈ bot.categories
        ∧ ((handleMessage bot env m u msg).submitted.map (fun p => p.category_id))
            = some c.id) := by
  refine ⟨resolveAccount_mem, resolveCategory_mem, ?_, ?_⟩
  · intro bot env m u msg s snap a hs hstate hsnap hnc hres
    simp only [List.mem_cons, List.mem_singleton, not_or] at hnc
    obtain ⟨h1, h2, h3, h4, h5, h6, h7⟩ := hnc
    refine ⟨resolveAccount_mem snap (jsTrim msg) a hres, ?_⟩
    unfold handleMessage
    simp only [getSession, hs, hstate]
    rw [if_neg (by tauto), if_neg (by tauto), if_neg (by tauto)]
    unfold handleSelectAccount
    simp only [getSession, hs, hsnap, Option.getD_some, hres]
    refine ⟨{ applyUpdates s
        { state := some .ENTER_DETAILS, accountId := some a.id }
        with lastActivityAt := env.now }, ?_, ?_, ?_⟩
    · simp only [updateSession, getSession, hs]
      exact mapGet_set_self _ _ _
    · rfl
    · rfl
  · intro bot env m u msg s c hs hstate hnc hres
    simp only [List.mem_cons, List.mem_singleton, not_or] at hnc
    obtain ⟨h1, h2, h3, h4, h5, h6, h7⟩ := hnc
    refine ⟨resolveCategory_mem bot.categories (jsTrim msg) c hres, ?_⟩
    unfold handleMessage
    simp only [getSession, hs, hstate]
    rw [if_neg (by tauto), if_neg (by tauto), if_neg (by tauto)]
    unfold handleSelectCategory
    simp only [getSession, hs, hres]
    cases houtcome : env.submitOutcome
      { account_id := s.accountId.getD [],
        date := env.today,
        amount := if s.transactionType = some .expense
          then -|s.amount.getD 0| else |s.amount.getD 0|,
        name := s.name.getD [],
        category_id := c.id,
        nature := s.transactionType } <;> simp [houtcome]

/-- Witness for c3_amended_resolution_sources: concrete account resolution
from a snapshot differing from the live cache, and the category branch of the
fixture flow. -/
theorem c3_amended_resolution_sources_witness :
    (accSavings ∈ [accSavings]
      ∧ ∃ s2, mapGet (handleMessage fixtureBot fixtureEnvOk
          [(str "u",
            { state := .SELECT_ACCOUNT, transactionType := some .expense,
              accounts := some [accSavings], createdAt := 0, lastActivityAt := 0 })]
          (str "u") (str "1")).sessions (str "u") = some s2
        ∧ s2.accountId = some accSavings.id ∧ s2.state = .ENTER_DETAILS)
    ∧ (catSalary ∈ fixtureBot.categories
      ∧ ((handleMessage fixtureBot fixtureEnvOk [(str "u", fixtureSessionSelCat)]
          (str "u") (str "1")).submitted.map (fun p => p.category_id))
          = some catSalary.id) := by
  constructor
  · exact c3_amended_resolution_sources.2.2.1 fixtureBot fixtureEnvOk
      [(str "u",
        { state := .SELECT_ACCOUNT, transactionType := some .expense,
          accounts := some [accSavings], createdAt := 0, lastActivityAt := 0 })]
      (str "u") (str "1")
      { state := .SELECT_ACCOUNT, transactionType := some .expense,
        accounts := some [accSavings], createdAt := 0, lastActivityAt := 0 }
      [accSavings] accSavings (by decide) rfl rfl (by decide) (by decide)
  · exact c3_amended_resolution_sources.2.2.2 fixtureBot fixtureEnvOk
      [(str "u", fixtureSessionSelCat)] (str "u") (str "1") fixtureSessionSelCat
      catSalary (by decide) rfl (by decide) (by decide)

theorem jsTrim_natRepr (n : ℕ) : jsTrim (natRepr n) = natRepr n := by
  obtain ⟨hne, hdig, _⟩ := natRepr_spec n
  exact jsTrim_eq_self
    (fun c hc => isDigitChar_not_ws (hdig c (List.mem_of_mem_head? (by rw [hc]; simp))))
    (fun c hc => isDigitChar_not_ws (hdig c (List.mem_of_mem_getLast? (by rw [hc]; simp))))

theorem handleSelectCategory_submitted (bot : SureBot) (env : BotEnv)
    (m : SessionStore) (u msg : Str) (s : UserSession) (c : Category)
    (hs : mapGet m u = some s)
    (hres : resolveCategory bot.categories (jsTrim msg) = some c) :
    (handleSelectCategory bot env m u msg).submitted.map (fun p => p.category_id)
      = some c.id := by
  unfold handleSelectCategory
  simp only [getSession, hs, hres]
  cases houtcome : env.submitOutcome
    { account_id := s.accountId.getD [],
      date := env.today,
      amount := if s.transactionType = some .expense
        then -|s.amount.getD 0| else |s.amount.getD 0|,
      name := s.name.getD [],
      category_id := c.id,
      nature := s.transactionType } <;> simp [houtcome]

theorem renderedOrder_line_infix (categories : List Category) (k : ℕ)
    (hk : k < (renderedOrder categories).length) :
    categoryLine (k + 1) ((renderedOrder categories).get ⟨k, hk⟩)
      <:+: formatCategoriesList categories := by
  unfold renderedOrder at hk ⊢
  simp only [formatCategoriesList]
  set E := categories.filter (fun c => c.classification = str "expense") with hE
  set I := categories.filter (fun c => c.classification = str "income") with hI
  rw [List.length_append] at hk
  by_cases hkE : k < E.length
  · have hget : (E ++ I).get ⟨k, by rw [List.length_append]; omega⟩ = E.get ⟨k, hkE⟩ :=
      List.get_append k hkE
    rw [hget, if_pos (show 0 < E.length by omega)]
    have hmem : categoryLine (k + 1) (E.get ⟨k, hkE⟩)
        ∈ E.enum.map (fun p => categoryLine (p.1 + 1) p.2) := by
      have he : E.enum.get ⟨k, by simp [List.enum_length]; omega⟩ = (k, E[k]) :=
        List.getElem_enum E k _
      have hm : (k, E[k]) ∈ E.enum := by rw [← he]; exact List.getElem_mem _
      simpa using List.mem_map_of_mem (fun p => categoryLine (p.1 + 1) p.2) hm
    refine (List.infix_of_mem_flatten hmem).trans ?_
    exact ⟨str "📁 *Select a category:*\n\n" ++ str "*Expenses:*\n",
      (if 0 < I.length then
        str "\n*Income:*\n"
          ++ (I.enum.map (fun p => categoryLine (E.length + p.1 + 1) p.2)).flatten
      else [])
      ++ str "\nReply with the number or type the category name.\n\n_Type \"/back\" to return to main menu._",
      by simp [List.append_assoc]⟩
  · have hkI : k - E.length < I.length := by omega
    have hget : (E ++ I).get ⟨k, by rw [List.length_append]; omega⟩
        = I.get ⟨k - E.length, hkI⟩ := List.get_append_right E I (by omega)
    rw [hget, if_pos (show 0 < I.length by omega)]
    have hnum : E.length + (k - E.length) + 1 = k + 1 := by omega
    have hmem : categoryLine (k + 1) (I.get ⟨k - E.length, hkI⟩)
        ∈ I.enum.map (fun p => categoryLine (E.length + p.1 + 1) p.2) := by
      have he : I.enum.get ⟨k - E.length, by simp [List.enum_length]; omega⟩
          = (k - E.length, I[k - E.length]) := List.getElem_enum I _ _
      have hm : (k - E.length, I[k - E.length]) ∈ I.enum := by
        rw [← he]; exact List.getElem_mem _
      have h2 := List.mem_map_of_mem (fun p => categoryLine (E.length + p.1 + 1) p.2) hm
      simpa [hnum] using h2
    refine (List.infix_of_mem_flatten hmem).trans ?_
    exact ⟨(str "📁 *Select a category:*\n\n"
        ++ (if 0 < E.length then
              str "*Expenses:*\n" ++ (E.enum.map (fun p => categoryLine (p.1 + 1) p.2)).flatten
            else []))
        ++ str "\n*Income:*\n",
      str "\nReply with the number or type the category name.\n\n_Type \"/back\" to return to main menu._",
      by simp [List.append_assoc]⟩

/-- Claim C2 counterexample: with the live cache [Salary(income), Food(expense)]
the rendered list numbers Food as 1, but entering 1 submits Salary\x27s id
while entering Food submits Food\x27s id — different categoryIds. -/
theorem c2_counterexample_rendered_number_mismatch :
    categoryLine 1 catFood <:+: formatCategoriesList fixtureBot.categories
    ∧ ((handleMessage fixtureBot fixtureEnvOk [(str "u", fixtureSessionSelCat)]
        (str "u") (str "Food")).submitted.map (fun p => p.category_id))
        = some catFood.id
    ∧ ((handleMessage fixtureBot fixtureEnvOk [(str "u", fixtureSessionSelCat)]
        (str "u") (natRepr 1)).submitted.map (fun p => p.category_id))
        = some catSalary.id
    ∧ ¬(catSalary.id = catFood.id) := by
  exact ⟨by decide, by decide, by decide, by decide⟩

/-- Claim C2 (amended): number-vs-name agreement holds for the k-th category
of the engine\x27s array exactly under the conditions the code imposes: the
array must already list all expense categories before all income categories
(hord, making the rendered numbering coincide with array positions), no
earlier category may share the name case-insensitively, and the name must not
itself parseInt to an in-range index.  Then the rendered list shows k+1 next
to that category, and entering k+1 or the category\x27s name (in any letter
case) resolves to it and submits the same categoryId. -/
theorem c2_number_and_name_agree (categories : List Category) (k : ℕ)
    (hk : k < categories.length)
    (hord : renderedOrder categories = categories)
    (hdup : ∀ j (hj : j < k),
      ¬(jsToLower ((categories.get ⟨j, by omega⟩).name)
        = jsToLower ((categories.get ⟨k, hk⟩).name))) :
    categoryLine (k + 1) (categories.get ⟨k, hk⟩) <:+: formatCategoriesList categories
    ∧ resolveCategory categories (natRepr (k + 1)) = some (categories.get ⟨k, hk⟩)
    ∧ (∀ text : Str,
        jsToLower text = jsToLower ((categories.get ⟨k, hk⟩).name) →
        (∀ n : ℤ, jsParseInt text = some n → n < 1 ∨ (categories.length : ℤ) < n) →
        resolveCategory categories text = some (categories.get ⟨k, hk⟩))
    ∧ (∀ (bot : SureBot) (env : BotEnv) (m : SessionStore) (u : Str)
        (s : UserSession) (text : Str),
        bot.categories = categories → mapGet m u = some s →
        jsTrim text = text →
        jsToLower text = jsToLower ((categories.get ⟨k, hk⟩).name) →
        (∀ n : ℤ, jsParseInt text = some n → n < 1 ∨ (categories.length : ℤ) < n) →
        (handleSelectCategory bot env m u (natRepr (k + 1))).submitted.map
            (fun p => p.category_id) = some ((categories.get ⟨k, hk⟩).id)
        ∧ (handleSelectCategory bot env m u text).submitted.map
            (fun p => p.category_id) = some ((categories.get ⟨k, hk⟩).id)) := by
  have hparse : jsParseInt (natRepr (k + 1)) = some ((k : ℤ) + 1) := by
    have h := jsParseInt_natRepr (k + 1)
    rwa [show (((k + 1 : ℕ) : ℤ)) = (k : ℤ) + 1 by push_cast; ring] at h
  have hnumsel : resolveCategory categories (natRepr (k + 1))
      = some (categories.get ⟨k, hk⟩) :=
    resolveCategory_index categories (natRepr (k + 1)) k hk hparse
  have hnamesel : ∀ text : Str,
      jsToLower text = jsToLower ((categories.get ⟨k, hk⟩).name) →
      (∀ n : ℤ, jsParseInt text = some n → n < 1 ∨ (categories.length : ℤ) < n) →
      resolveCategory categories text = some (categories.get ⟨k, hk⟩) := by
    intro text htext hnum
    rw [resolveCategory_by_name categories text hnum]
    exact find?_eq_of_first _ categories k hk
      (fun j hj => by simp only [decide_eq_false_iff_not, htext]; exact hdup j hj)
      (by simp [htext])
  refine ⟨?_, hnumsel, hnamesel, ?_⟩
  · have hk' : k < (renderedOrder categories).length := by rw [hord]; exact hk
    have h := renderedOrder_line_infix categories k hk'
    rwa [List.get_of_eq hord ⟨k, hk'⟩] at h
  · intro bot env m u s text hbot hs htrim htext hnum
    constructor
    · exact handleSelectCategory_submitted bot env m u (natRepr (k + 1)) s
        (categories.get ⟨k, hk⟩) hs
        (by rw [jsTrim_natRepr, hbot]; exact hnumsel)
    · exact handleSelectCategory_submitted bot env m u text s
        (categories.get ⟨k, hk⟩) hs
        (by rw [htrim, hbot]; exact hnamesel text htext hnum)

/-- Witness for c2_number_and_name_agree: in the properly ordered list
[Food(expense), Salary(income)], entering 2 and entering SALARY both resolve
to Salary. -/
theorem c2_number_and_name_agree_witness :
    resolveCategory [catFood, catSalary] (natRepr 2) = some catSalary
    ∧ resolveCategory [catFood, catSalary] (str "SALARY") = some catSalary := by
  have h := c2_number_and_name_agree [catFood, catSalary] 1 (by decide) (by decide)
    (fun j hj => by
      interval_cases j
      show ¬(jsToLower catFood.name = jsToLower catSalary.name)
      decide)
  refine ⟨h.2.1, ?_⟩
  refine h.2.2.1 (str "SALARY") (by decide) ?_
  intro n hn
  rw [show jsParseInt (str "SALARY") = none by decide] at hn
  cases hn

theorem reMatches_opt_lit (c : Char) (s : Str) (h : ¬(s.head? = some c)) :
    reMatches (RE.opt (RE.lit c)) s = [s] := by
  cases s with
  | nil => rfl
  | cons x xs =>
    have hx : ¬(x = c) := fun he => h (by rw [List.head?_cons, he])
    simp [reMatches, hx]

theorem reMatches_numDollar_eq (s : Str) (h : ¬(s.head? = some '$')) :
    reMatches numDollar s = reMatches numCore s := by
  show (reMatches (RE.opt (RE.lit '$')) s).flatMap (reMatches numCore)
    = reMatches numCore s
  rw [reMatches_opt_lit '$' s h]
  simp

theorem reMatches_numCore_dollar (t : Str) :
    reMatches numCore ('$' :: t) = [] := by
  show (reMatches (RE.opt (RE.lit '-')) ('$' :: t)).flatMap
    (reMatches (RE.seq (.plusG .digit) (.opt decimalPart))) = []
  rw [reMatches_opt_lit '-' _ (by simp)]
  simp [reMatches, ccMatch, List.takeWhile, show isDigitChar '$' = false from by decide]

theorem pattern1Match_dollar (t : Str) : pattern1Match ('$' :: t) = none := by
  unfold pattern1Match matchTwoGroups
  rw [reMatches_numCore_dollar]
  rfl

theorem pattern2Match_eq_pattern1Match (s : Str) (h : ¬(s.head? = some '$')) :
    pattern2Match s = pattern1Match s := by
  unfold pattern2Match pattern1Match matchTwoGroups
  rw [reMatches_numDollar_eq s h]

theorem pattern1_some_imp_pattern2 (s : Str) (g : Str × Str)
    (h1 : pattern1Match s = some g) : pattern2Match s = some g := by
  by_cases hd : s.head? = some '$'
  · cases s with
    | nil => simp at hd
    | cons x xs =>
      rw [List.head?_cons, Option.some.injEq] at hd
      subst hd
      rw [pattern1Match_dollar] at h1
      cases h1
  · rw [pattern2Match_eq_pattern1Match s hd]
    exact h1

theorem pattern2_none_imp_pattern1 (s : Str) (h2 : pattern2Match s = none) :
    pattern1Match s = none := by
  cases h1 : pattern1Match s with
  | none => rfl
  | some g => rw [pattern1_some_imp_pattern2 s g h1] at h2; cases h2

/-- Claim C9 counterexample: on input $50 x pattern 2 matches with captures
($50, x) while pattern 1 does not match at all — pattern 1 does not subsume
pattern 2 (its regex has no dollar sign); the whole parse still accepts the
input, through pattern 2. -/
theorem c9_counterexample_dollar_input :
    pattern2Match (str "$50 x") = some (str "$50", str "x")
    ∧ pattern1Match (str "$50 x") = none
    ∧ (parseTransactionDetails (str "$50 x")).map (fun p => p.name) = some (str "x") :=
  ⟨by decide, by decide, by decide⟩

/-- Claim C9 (amended): the subsumption runs the other way — pattern 2
(optional dollar) matches whenever pattern 1 matches, with identical
captures, so collapsing patterns 1-2 into pattern 2 alone preserves the
result of parse on every input. -/
theorem c9_collapse_to_pattern2 :
    (∀ (s : Str) (g : Str × Str), pattern1Match s = some g → pattern2Match s = some g)
    ∧ (∀ s : Str, parseCollapsedPatterns s = parseTransactionDetails s) := by
  constructor
  · exact pattern1_some_imp_pattern2
  · intro s
    cases hv : validateInput s with
    | none =>
      unfold parseCollapsedPatterns parseTransactionDetails
      simp only [hv]
    | some v =>
      unfold parseCollapsedPatterns parseTransactionDetails
      simp only [hv]
      by_cases hd : v.head? = some '$'
      · cases v with
        | nil => simp at hd
        | cons x xs =>
          rw [List.head?_cons, Option.some.injEq] at hd
          subst hd
          rw [pattern1Match_dollar]
          rfl
      · rw [pattern2Match_eq_pattern1Match v hd]
        cases ht : tryPattern (pattern1Match v) false <;> rfl

/-- Witness for c9_collapse_to_pattern2 on the dollarless input 50 x. -/
theorem c9_collapse_to_pattern2_witness :
    pattern2Match (str "50 x") = some (str "50", str "x") :=
  c9_collapse_to_pattern2.1 (str "50 x") (str "50", str "x") (by decide)

theorem findSome?_eq_none_of_all {α β : Type} {f : α → Option β} :
    ∀ {l : List α}, (∀ a ∈ l, f a = none) → l.findSome? f = none := by
  intro l
  induction l with
  | nil => intro _; rfl
  | cons a t ih =>
    intro h
    rw [List.findSome?_cons]
    rw [h a (by simp)]
    exact ih fun x hx => h x (by simp [hx])

theorem findSome?_cons_eval {α β : Type} {f : α → Option β} {a : α} {l : List α} :
    (a :: l).findSome? f = match f a with
      | some b => some b
      | none => l.findSome? f := List.findSome?_cons

theorem findSome?_map_eq {α β γ : Type} (g : α → β) (f : β → Option γ) :
    ∀ (l : List α), (l.map g).findSome? f = l.findSome? (fun x => f (g x)) := by
  intro l
  induction l with
  | nil => rfl
  | cons a t ih =>
    rw [List.map_cons, List.findSome?_cons, List.findSome?_cons]
    cases f (g a) <;> simp [ih]

theorem findSome?_range_first {β : Type} {f : ℕ → Option β} {b : β} :
    ∀ (n m : ℕ), m < n → (∀ i, i < m → f i = none) → f m = some b →
      (List.range n).findSome? f = some b := by
  intro n
  induction n with
  | zero => omega
  | succ n ih =>
    intro m hm hnone hb
    rw [List.range_succ, List.findSome?_append]
    by_cases hmn : m < n
    · rw [ih m hmn hnone hb]
      rfl
    · have hmeq : m = n := by omega
      subst hmeq
      rw [findSome?_eq_none_of_all (fun i hi => hnone i (by simpa using hi))]
      simp [hb]

theorem mem_take_takeWhile {p : Char → Bool} (s : Str) (m : ℕ)
    (hm : m ≤ (s.takeWhile p).length) : ∀ c ∈ s.take m, p c = true := by
  intro c hc
  have h1 : s.take m = (s.takeWhile p).take m := by
    conv_lhs => rw [← List.takeWhile_append_dropWhile p s]
    rw [List.take_append_of_le_length hm]
  rw [h1] at hc
  exact List.mem_takeWhile_imp (List.mem_of_mem_take hc)

theorem reMatches_consumed : ∀ (re : RE) (s r : Str), r ∈ reMatches re s →
    ∃ p, s = p ++ r ∧ ∀ c ∈ p, reChars re c := by
  intro re
  induction re with
  | eps =>
    intro s r hr
    simp [reMatches] at hr
    exact ⟨[], by simp [hr]⟩
  | lit c =>
    intro s r hr
    cases s with
    | nil => simp [reMatches] at hr
    | cons x xs =>
      simp only [reMatches] at hr
      by_cases hx : x = c
      · simp [hx] at hr
        exact ⟨[x], by simp [hr.symm], by simp [reChars, hx]⟩
      · simp [hx] at hr
  | cls cc =>
    intro s r hr
    cases s with
    | nil => simp [reMatches] at hr
    | cons x xs =>
      simp only [reMatches] at hr
      by_cases hx : ccMatch cc x = true
      · simp [hx] at hr
        exact ⟨[x], by simp [hr.symm], by simp [reChars, hx]⟩
      · simp [hx] at hr
  | seq a b iha ihb =>
    intro s r hr
    simp only [reMatches, List.mem_flatMap] at hr
    obtain ⟨mid, hmid, hr⟩ := hr
    obtain ⟨p1, hp1, hc1⟩ := iha s mid hmid
    obtain ⟨p2, hp2, hc2⟩ := ihb mid r hr
    refine ⟨p1 ++ p2, by rw [hp1, hp2, List.append_assoc], ?_⟩
    intro c hc
    rcases List.mem_append.mp hc with h | h
    · exact Or.inl (hc1 c h)
    · exact Or.inr (hc2 c h)
  | opt a iha =>
    intro s r hr
    simp only [reMatches, List.mem_append, List.mem_singleton] at hr
    rcases hr with hr | hr
    · obtain ⟨p, hp, hc⟩ := iha s r hr
      exact ⟨p, hp, hc⟩
    · exact ⟨[], by simp [hr], by simp⟩
  | plusG cc =>
    intro s r hr
    simp only [reMatches, List.mem_map, List.mem_range] at hr
    obtain ⟨i, hi, hr⟩ := hr
    refine ⟨s.take ((s.takeWhile (ccMatch cc)).length - i), ?_, ?_⟩
    · rw [← hr]
      exact (List.take_append_drop _ s).symm
    · exact fun c hc => mem_take_takeWhile s _ (by omega) c hc
  | plusL cc =>
    intro s r hr
    simp only [reMatches, List.mem_map, List.mem_range] at hr
    obtain ⟨i, hi, hr⟩ := hr
    refine ⟨s.take (i + 1), ?_, ?_⟩
    · rw [← hr]
      exact (List.take_append_drop _ s).symm
    · exact fun c hc => mem_take_takeWhile s _ (by omega) c hc

theorem reMatches_plusG_consumed (cc : CC) (s r : Str)
    (hr : r ∈ reMatches (RE.plusG cc) s) :
    ∃ p, s = p ++ r ∧ ¬(p = []) ∧ ∀ c ∈ p, ccMatch cc c = true := by
  simp only [reMatches, List.mem_map, List.mem_range] at hr
  obtain ⟨i, hi, hr⟩ := hr
  refine ⟨s.take ((s.takeWhile (ccMatch cc)).length - i), ?_, ?_, ?_⟩
  · rw [← hr]
    exact (List.take_append_drop _ s).symm
  · have hlen : (s.takeWhile (ccMatch cc)).length ≤ s.length :=
      (List.takeWhile_sublist _).length_le
    have : 0 < (s.takeWhile (ccMatch cc)).length - i := by omega
    intro hnil
    rw [List.take_eq_nil_iff] at hnil
    rcases hnil with h | h
    · omega
    · subst h
      simp at hi
  · exact fun c hc => mem_take_takeWhile s _ (by omega) c hc

theorem head?_flatMap {α β : Type} {l : List α} {f : α → List β} {x : α} {y : β}
    (hl : l.head? = some x) (hf : (f x).head? = some y) :
    (l.flatMap f).head? = some y := by
  cases l with
  | nil => simp at hl
  | cons a t =>
    rw [List.head?_cons, Option.some.injEq] at hl
    rw [List.flatMap_cons, hl]
    cases hfa : f x with
    | nil => rw [hfa] at hf; simp at hf
    | cons b bt =>
      rw [hfa, List.head?_cons] at hf
      simpa using hf

theorem reMatches_plusG_head {cc : CC} {s run rest : Str}
    (hsplit : s = run ++ rest) (hrun : ¬(run = [])) (hall : ∀ c ∈ run, ccMatch cc c = true)
    (hrest : ∀ c, rest.head? = some c → ccMatch cc c = false) :
    (reMatches (RE.plusG cc) s).head? = some rest := by
  have htw : s.takeWhile (ccMatch cc) = run := by
    rw [hsplit]
    rw [List.takeWhile_append, takeWhile_eq_self_of_all hall]
    simp only [if_pos rfl]
    cases rest with
    | nil => simp
    | cons b bt => simp [List.takeWhile_cons, hrest b rfl]
  have hn : 0 < (s.takeWhile (ccMatch cc)).length := by
    rw [htw]
    cases run with
    | nil => exact absurd rfl hrun
    | cons a t => simp
  simp only [reMatches]
  obtain ⟨n, hn'⟩ : ∃ n, (s.takeWhile (ccMatch cc)).length = n + 1 :=
    ⟨(s.takeWhile (ccMatch cc)).length - 1, by omega⟩
  rw [hn', List.range_succ_eq_map]
  simp only [List.map_cons, List.head?_cons, Nat.sub_zero]
  have hdrop : s.drop (n + 1) = rest := by
    have : n + 1 = run.length := by
      rw [← hn', htw]
    rw [this, hsplit, List.drop_left]
  rw [hdrop]

theorem reMatches_plusG_all_mem {cc : CC} {s run rest : Str}
    (hsplit : s = run ++ rest) (hall : ∀ c ∈ run, ccMatch cc c = true)
    (hrest : ∀ c, rest.head? = some c → ccMatch cc c = false) (hne : ¬(run = [])) :
    rest ∈ reMatches (RE.plusG cc) s := by
  have h := reMatches_plusG_head hsplit hne hall hrest
  exact List.mem_of_mem_head? (by rw [h]; simp)

theorem reMatches_decimalPart_opt_head {dp rest : Str}
    (hdp : dp = [] ∨ ((dp.length = 1 ∨ dp.length = 2) ∧ ∀ c ∈ dp, isDigitChar c = true))
    (hrest : ∀ c, rest.head? = some c → isDigitChar c = false ∧ ¬(c = '.')) :
    (reMatches (RE.opt decimalPart) ((if dp = [] then [] else '.' :: dp) ++ rest)).head?
      = some rest := by
  rcases hdp with hdp | ⟨hlen, hdig⟩
  · subst hdp
    simp only [if_pos rfl, List.nil_append]
    have hlit : reMatches (RE.lit '.') rest = [] := by
      cases rest with
      | nil => rfl
      | cons b bt => simp [reMatches, (hrest b rfl).2]
    show ((reMatches (RE.lit '.') rest).flatMap _ ++ [rest]).head? = some rest
    rw [hlit]
    rfl
  · have hdpn : ¬(dp = []) := by
      intro h
      subst h
      simp at hlen
    rw [if_neg hdpn]
    cases dp with
    | nil => exact absurd rfl hdpn
    | cons d dt =>
      have hd : isDigitChar d = true := hdig d (by simp)
      cases dt with
      | nil =>
        have hcls : reMatches (RE.cls CC.digit) rest = [] := by
          cases rest with
          | nil => rfl
          | cons b bt => simp [reMatches, ccMatch, (hrest b rfl).1]
        show (reMatches decimalPart ('.' :: d :: rest) ++ [('.' :: d :: rest)]).head?
          = some rest
        have h1 : reMatches decimalPart ('.' :: d :: rest)
            = (reMatches (RE.cls CC.digit) (d :: rest)).flatMap
                (reMatches (RE.opt (RE.cls CC.digit))) := by
          show (reMatches (RE.lit '.') ('.' :: d :: rest)).flatMap _ = _
          simp [reMatches]
        rw [h1]
        have h2 : reMatches (RE.cls CC.digit) (d :: rest) = [rest] := by
          simp [reMatches, ccMatch, hd]
        rw [h2]
        have h3 : reMatches (RE.opt (RE.cls CC.digit)) rest = [rest] := by
          show reMatches (RE.cls CC.digit) rest ++ [rest] = [rest]
          rw [hcls]
          rfl
        simp [h3]
      | cons d2 dt2 =>
        have hd2 : isDigitChar d2 = true := hdig d2 (by simp)
        have hdt2 : dt2 = [] := by
          have hlen2 : dt2.length = 0 := by
            rcases hlen with h | h
            · rw [List.length_cons, List.length_cons] at h
              omega
            · rw [List.length_cons, List.length_cons] at h
              omega
          exact List.length_eq_zero.mp hlen2
        subst hdt2
        show (reMatches decimalPart ('.' :: d :: d2 :: rest)
          ++ [('.' :: d :: d2 :: rest)]).head? = some rest
        have h1 : reMatches decimalPart ('.' :: d :: d2 :: rest)
            = (reMatches (RE.cls CC.digit) (d :: d2 :: rest)).flatMap
                (reMatches (RE.opt (RE.cls CC.digit))) := by
          show (reMatches (RE.lit '.') ('.' :: d :: d2 :: rest)).flatMap _ = _
          simp [reMatches]
        rw [h1]
        have h2 : reMatches (RE.cls CC.digit) (d :: d2 :: rest) = [d2 :: rest] := by
          simp [reMatches, ccMatch, hd]
        rw [h2]
        have h3 : reMatches (RE.opt (RE.cls CC.digit)) (d2 :: rest) = [rest, d2 :: rest] := by
          show reMatches (RE.cls CC.digit) (d2 :: rest) ++ [d2 :: rest] = _
          simp [reMatches, ccMatch, hd2]
        simp [h3]

theorem reMatches_numCore_head {neg : Bool} {ip dp rest : Str}
    (hip : ¬(ip = [])) (hipd : ∀ c ∈ ip, isDigitChar c = true)
    (hdp : dp = [] ∨ ((dp.length = 1 ∨ dp.length = 2) ∧ ∀ c ∈ dp, isDigitChar c = true))
    (hrest : ∀ c, rest.head? = some c → isDigitChar c = false ∧ ¬(c = '.')) :
    (reMatches numCore
      ((if neg then ['-'] else [])
        ++ (ip ++ ((if dp = [] then [] else '.' :: dp) ++ rest)))).head? = some rest := by
  have hstep2 : (reMatches (RE.plusG CC.digit)
      (ip ++ ((if dp = [] then [] else '.' :: dp) ++ rest))).head?
      = some ((if dp = [] then [] else '.' :: dp) ++ rest) := by
    refine reMatches_plusG_head rfl hip (by simpa [ccMatch] using hipd) ?_
    intro c hc
    by_cases hdpn : dp = []
    · rw [hdpn] at hc
      simp only [if_pos rfl, List.nil_append] at hc
      simpa [ccMatch] using (hrest c hc).1
    · rw [if_neg hdpn] at hc
      cases dp with
      | nil => exact absurd rfl hdpn
      | cons d dt =>
        simp only [List.cons_append, List.head?_cons, Option.some.injEq] at hc
        subst hc
        decide
  have hstep3 := reMatches_decimalPart_opt_head hdp hrest
  have hcore2 : (reMatches (RE.seq (RE.plusG CC.digit) (RE.opt decimalPart))
      (ip ++ ((if dp = [] then [] else '.' :: dp) ++ rest))).head? = some rest := by
    show ((reMatches (RE.plusG CC.digit) _).flatMap _).head? = some rest
    exact head?_flatMap hstep2 hstep3
  have hstep1 : (reMatches (RE.opt (RE.lit '-'))
      ((if neg then ['-'] else [])
        ++ (ip ++ ((if dp = [] then [] else '.' :: dp) ++ rest)))).head?
      = some (ip ++ ((if dp = [] then [] else '.' :: dp) ++ rest)) := by
    cases neg with
    | true =>
      simp only [if_pos rfl]
      show ((reMatches (RE.lit '-') _) ++ _).head? = _
      simp [reMatches]
    | false =>
      simp only [if_neg (by simp : ¬(false = true)), List.nil_append]
      rw [reMatches_opt_lit]
      · rfl
      · cases ip with
        | nil => exact absurd rfl hip
        | cons a t =>
          have ha : isDigitChar a = true := hipd a (by simp)
          simp only [List.cons_append, List.head?_cons, Option.some.injEq]
          intro hcon
          subst hcon
          simp [isDigitChar] at ha
  show ((reMatches (RE.opt (RE.lit '-')) _).flatMap _).head? = some rest
  exact head?_flatMap hstep1 hcore2

theorem reMatches_numDollar_head {dollar neg : Bool} {ip dp rest : Str}
    (hip : ¬(ip = [])) (hipd : ∀ c ∈ ip, isDigitChar c = true)
    (hdp : dp = [] ∨ ((dp.length = 1 ∨ dp.length = 2) ∧ ∀ c ∈ dp, isDigitChar c = true))
    (hrest : ∀ c, rest.head? = some c → isDigitChar c = false ∧ ¬(c = '.')) :
    (reMatches numDollar (renderNum dollar neg ip dp ++ rest)).head? = some rest := by
  have hcore := @reMatches_numCore_head neg _ _ _ hip hipd hdp hrest
  cases dollar with
  | true =>
    have hs : renderNum true neg ip dp ++ rest
        = '$' :: ((if neg then ['-'] else [])
            ++ (ip ++ ((if dp = [] then [] else '.' :: dp) ++ rest))) := by
      simp [renderNum, List.append_assoc]
    rw [hs]
    show ((reMatches (RE.opt (RE.lit '$')) _).flatMap (reMatches numCore)).head? = some rest
    refine head?_flatMap ?_ hcore
    show ((reMatches (RE.lit '$') _) ++ _).head? = _
    simp [reMatches]
  | false =>
    have hs : renderNum false neg ip dp ++ rest
        = (if neg then ['-'] else [])
            ++ (ip ++ ((if dp = [] then [] else '.' :: dp) ++ rest)) := by
      simp [renderNum, List.append_assoc]
    rw [hs]
    show ((reMatches (RE.opt (RE.lit '$')) _).flatMap (reMatches numCore)).head? = some rest
    refine head?_flatMap ?_ hcore
    rw [reMatches_opt_lit]
    · rfl
    · cases neg with
      | true => simp
      | false =>
        cases ip with
        | nil => exact absurd rfl hip
        | cons a t =>
          have ha : isDigitChar a = true := hipd a (by simp)
          simp only [if_neg (by simp : ¬(false = true)), List.nil_append,
            List.cons_append, List.head?_cons, Option.some.injEq]
          intro hcon
          subst hcon
          simp [isDigitChar] at ha

theorem reMatches_numCore_full {neg : Bool} {ip dp : Str}
    (hip : ¬(ip = [])) (hipd : ∀ c ∈ ip, isDigitChar c = true)
    (hdp : dp = [] ∨ ((dp.length = 1 ∨ dp.length = 2) ∧ ∀ c ∈ dp, isDigitChar c = true)) :
    ([] : Str) ∈ reMatches numCore (renderNum false neg ip dp) := by
  have h := @reMatches_numCore_head neg _ _ [] hip hipd hdp
    (fun c hc => by simp at hc)
  have hs : renderNum false neg ip dp
      = (if neg then ['-'] else [])
          ++ (ip ++ ((if dp = [] then [] else '.' :: dp) ++ [])) := by
    simp [renderNum, List.append_assoc]
  rw [hs]
  exact List.mem_of_mem_head? (by rw [h]; simp)

theorem reMatches_numDollar_full {dollar neg : Bool} {ip dp : Str}
    (hip : ¬(ip = [])) (hipd : ∀ c ∈ ip, isDigitChar c = true)
    (hdp : dp = [] ∨ ((dp.length = 1 ∨ dp.length = 2) ∧ ∀ c ∈ dp, isDigitChar c = true)) :
    ([] : Str) ∈ reMatches numDollar (renderNum dollar neg ip dp) := by
  have h := @reMatches_numDollar_head dollar neg _ _ []
    hip hipd hdp (fun c hc => by simp at hc)
  rw [List.append_nil] at h
  exact List.mem_of_mem_head? (by rw [h]; simp)

theorem matchTwoGroups_of_heads (A B : RE) (s r1 r2 : Str)
    (h1 : (reMatches A s).head? = some r1)
    (h2 : (reMatches (RE.plusG CC.space) r1).head? = some r2)
    (h3 : ([] : Str) ∈ reMatches B r2) :
    matchTwoGroups A B s = some (s.take (s.length - r1.length), r2) := by
  unfold matchTwoGroups
  cases hA : reMatches A s with
  | nil => rw [hA] at h1; simp at h1
  | cons a t =>
    rw [hA, List.head?_cons, Option.some.injEq] at h1
    rw [List.findSome?_cons]
    rw [h1]
    cases hW : reMatches (RE.plusG CC.space) r1 with
    | nil => rw [hW] at h2; simp at h2
    | cons b t2 =>
      rw [hW] at h2
      rw [List.head?_cons, Option.some.injEq] at h2
      rw [List.findSome?_cons, h2, if_pos h3]

theorem takeWhile_append_of_all {p : Char → Bool} {a b : Str}
    (ha : ∀ c ∈ a, p c = true) (hb : ∀ c, b.head? = some c → p c = false) :
    (a ++ b).takeWhile p = a := by
  rw [List.takeWhile_append, takeWhile_eq_self_of_all ha]
  simp only [if_pos rfl]
  cases b with
  | nil => simp
  | cons x xs => simp [List.takeWhile_cons, hb x rfl]

theorem dropWhile_append_of_all {p : Char → Bool} {a b : Str}
    (ha : ∀ c ∈ a, p c = true) (hb : ∀ c, b.head? = some c → p c = false) :
    (a ++ b).dropWhile p = b := by
  induction a with
  | nil => exact dropWhile_eq_self_of_head hb
  | cons x xs ih =>
    rw [List.cons_append, List.dropWhile_cons, if_pos (ha x (by simp))]
    exact ih fun c hc => ha c (by simp [hc])

theorem removeFirst_not_mem {c : Char} : ∀ {l : Str}, ¬(c ∈ l) → removeFirst c l = l := by
  intro l
  induction l with
  | nil => intro _; rfl
  | cons x xs ih =>
    intro h
    have hx : ¬(x = c) := fun he => h (by simp [he])
    rw [removeFirst, if_neg hx, ih fun hm => h (by simp [hm])]

theorem renderNumFalse_chars {neg : Bool} {ip dp : Str}
    (hipd : ∀ c ∈ ip, isDigitChar c = true) (hdpd : ∀ c ∈ dp, isDigitChar c = true) :
    ∀ c ∈ renderNum false neg ip dp, c = '-' ∨ c = '.' ∨ isDigitChar c = true := by
  intro c hc
  unfold renderNum at hc
  simp only [if_neg (by simp : ¬(false = true)), List.nil_append] at hc
  rcases List.mem_append.mp hc with h | h
  · rcases List.mem_append.mp h with h | h
    · cases neg with
      | true => simp at h; exact Or.inl h
      | false => simp at h
    · exact Or.inr (Or.inr (hipd c h))
  · by_cases hdp : dp = []
    · rw [hdp] at h; simp at h
    · rw [if_neg hdp] at h
      rcases List.mem_cons.mp h with h | h
      · exact Or.inr (Or.inl h)
      · exact Or.inr (Or.inr (hdpd c h))

theorem dollar_not_mem_renderNumFalse {neg : Bool} {ip dp : Str}
    (hipd : ∀ c ∈ ip, isDigitChar c = true) (hdpd : ∀ c ∈ dp, isDigitChar c = true) :
    ¬('$' ∈ renderNum false neg ip dp) := by
  intro h
  rcases renderNumFalse_chars hipd hdpd '$' h with h | h | h
  · cases h
  · cases h
  · simp [isDigitChar] at h

theorem comma_not_mem_renderNumFalse {neg : Bool} {ip dp : Str}
    (hipd : ∀ c ∈ ip, isDigitChar c = true) (hdpd : ∀ c ∈ dp, isDigitChar c = true) :
    ¬(',' ∈ renderNum false neg ip dp) := by
  intro h
  rcases renderNumFalse_chars hipd hdpd ',' h with h | h | h
  · cases h
  · cases h
  · simp [isDigitChar] at h

theorem removeFirst_renderNum {dollar neg : Bool} {ip dp : Str}
    (hipd : ∀ c ∈ ip, isDigitChar c = true) (hdpd : ∀ c ∈ dp, isDigitChar c = true) :
    removeFirst ',' (removeFirst '$' (renderNum dollar neg ip dp))
      = renderNum false neg ip dp := by
  cases dollar with
  | true =>
    have hs : renderNum true neg ip dp = '$' :: renderNum false neg ip dp := by
      simp [renderNum]
    rw [hs, removeFirst, if_pos rfl,
      removeFirst_not_mem (comma_not_mem_renderNumFalse hipd hdpd)]
  | false =>
    rw [removeFirst_not_mem (dollar_not_mem_renderNumFalse hipd hdpd),
      removeFirst_not_mem (comma_not_mem_renderNumFalse hipd hdpd)]

theorem numValue_nonneg (ip dp : Str) : 0 ≤ numValue ip dp := by
  unfold numValue
  have h1 : (0 : ℚ) ≤ (digitsVal ip : ℚ) := by positivity
  have h2 : (0 : ℚ) ≤ (digitsVal dp : ℚ) / (10 ^ dp.length) := by positivity
  linarith

theorem numValue_nil (ip : Str) : numValue ip [] = (digitsVal ip : ℚ) := by
  simp [numValue, digitsVal]

theorem jsParseFloat_token {neg : Bool} {ip dp : Str}
    (hip : ¬(ip = [])) (hipd : ∀ c ∈ ip, isDigitChar c = true)
    (hdpd : ∀ c ∈ dp, isDigitChar c = true) :
    jsParseFloat (renderNum false neg ip dp)
      = some ((if neg then (-1 : ℚ) else 1) * numValue ip dp) := by
  have hdpart : ∀ c, ((if dp = [] then [] else '.' :: dp) : Str).head? = some c →
      isDigitChar c = false := by
    intro c hc
    by_cases hdp : dp = []
    · rw [hdp] at hc; simp at hc
    · rw [if_neg hdp, List.head?_cons, Option.some.injEq] at hc
      subst hc
      decide
  have hcore : renderNum false neg ip dp
      = (if neg then ['-'] else []) ++ (ip ++ (if dp = [] then [] else '.' :: dp)) := by
    simp [renderNum, List.append_assoc]
  have hheadfacts : ∀ c, (ip ++ (if dp = [] then [] else '.' :: dp)).head? = some c →
      isDigitChar c = true := by
    intro c hc
    cases ip with
    | nil => exact absurd rfl hip
    | cons a t =>
      rw [List.cons_append, List.head?_cons, Option.some.injEq] at hc
      rw [← hc]
      exact hipd a (by simp)
  have hdropws : (renderNum false neg ip dp).dropWhile isJsWs = renderNum false neg ip dp := by
    refine dropWhile_eq_self_of_head fun c hc => ?_
    have hmem : c ∈ renderNum false neg ip dp := List.mem_of_mem_head? (by rw [hc]; simp)
    rcases renderNumFalse_chars hipd hdpd c hmem with h | h | h
    · subst h; decide
    · subst h; decide
    · exact isDigitChar_not_ws h
  have hnotminus : ¬((ip ++ (if dp = [] then [] else '.' :: dp)).head? = some '-') := by
    intro hcon
    have := hheadfacts '-' hcon
    simp [isDigitChar] at this
  have hnotplus : ¬((ip ++ (if dp = [] then [] else '.' :: dp)).head? = some '+') := by
    intro hcon
    have := hheadfacts '+' hcon
    simp [isDigitChar] at this
  have hsign : (if (renderNum false neg ip dp).head? = some '-' then (-1 : ℚ) else 1)
      = (if neg then (-1 : ℚ) else 1) := by
    cases neg with
    | true =>
      rw [hcore]
      simp
    | false =>
      rw [hcore]
      simp only [if_neg (by simp : ¬(false = true)), List.nil_append]
      rw [if_neg hnotminus]
  have hs2 : (if (renderNum false neg ip dp).head? = some '-'
        ∨ (renderNum false neg ip dp).head? = some '+'
      then (renderNum false neg ip dp).tail else renderNum false neg ip dp)
      = ip ++ (if dp = [] then [] else '.' :: dp) := by
    cases neg with
    | true =>
      rw [hcore]
      simp
    | false =>
      rw [hcore]
      simp only [if_neg (by simp : ¬(false = true)), List.nil_append]
      rw [if_neg (not_or.mpr ⟨hnotminus, hnotplus⟩)]
  simp only [jsParseFloat]
  rw [hdropws, hsign, hs2]
  rw [takeWhile_append_of_all hipd hdpart, dropWhile_append_of_all hipd hdpart]
  rw [if_neg hip]
  by_cases hdp : dp = []
  · subst hdp
    simp only [if_pos rfl]
    rw [numValue_nil]
    simp
  · rw [if_neg hdp]
    cases dp with
    | nil => exact absurd rfl hdp
    | cons d dt =>
      simp only [List.head?_cons, Option.some.injEq, if_pos rfl, List.tail_cons]
      rw [takeWhile_eq_self_of_all (fun c hc => hdpd c hc)]
      rfl

theorem abs_sign_mul {neg : Bool} (v : ℚ) (hv : 0 ≤ v) :
    |(if neg then (-1 : ℚ) else 1) * v| = v := by
  cases neg with
  | true => simp [neg_mul, abs_neg, abs_of_nonneg hv]
  | false => simp [abs_of_nonneg hv]

theorem digit_not_sanitize {c : Char} (h : isDigitChar c = true) :
    ¬(c ∈ sanitizeChars) := by
  intro hc
  have hs : c ∈ ['<', '>', '"', '\x27', '\x60'] := hc
  fin_cases hs <;> simp [isDigitChar] at h

theorem isJsWs_not_dot {c : Char} (h : isJsWs c = true) : ¬(c = '.') := by
  have hm : c ∈ wsChars := by simpa [isJsWs] using h
  exact (mem_wsChars_props c hm).2.2.1

theorem isJsWs_not_sanitize {c : Char} (h : isJsWs c = true) : ¬(c ∈ sanitizeChars) := by
  have hm : c ∈ wsChars := by simpa [isJsWs] using h
  exact (mem_wsChars_props c hm).2.2.2.2

theorem wfNumB_unpack {ip dp : Str} (h : wfNumB ip dp = true) :
    ¬(ip = []) ∧ (∀ c ∈ ip, isDigitChar c = true)
      ∧ (dp = [] ∨ ((dp.length = 1 ∨ dp.length = 2) ∧ ∀ c ∈ dp, isDigitChar c = true))
      ∧ (∀ c ∈ dp, isDigitChar c = true) := by
  simp only [wfNumB, Bool.and_eq_true, Bool.or_eq_true, Bool.not_eq_true',
    List.isEmpty_eq_false, List.all_eq_true, List.isEmpty_iff] at h
  obtain ⟨⟨h1, h2⟩, h3⟩ := h
  have hd : dp = [] ∨ ((dp.length = 1 ∨ dp.length = 2) ∧ ∀ c ∈ dp, isDigitChar c = true) := by
    rcases h3 with h3 | ⟨h3a, h3b⟩
    · exact Or.inl h3
    · by_cases hdp : dp = []
      · exact Or.inl hdp
      · refine Or.inr ⟨?_, fun c hc => by simpa using h3b c hc⟩
        have : 0 < dp.length := by
          cases dp with
          | nil => exact absurd rfl hdp
          | cons a t => simp
        simp only [decide_eq_true_eq] at h3a
        omega
  refine ⟨?_, fun c hc => by simpa using h2 c hc, hd, ?_⟩
  · exact h1
  · intro c hc
    rcases hd with hd | ⟨_, hdig⟩
    · rw [hd] at hc; simp at hc
    · exact hdig c hc

theorem wfSepB_unpack {sep : Str} (h : wfSepB sep = true) :
    ¬(sep = []) ∧ ∀ c ∈ sep, isJsWs c = true := by
  simp only [wfSepB, Bool.and_eq_true, Bool.not_eq_true', List.isEmpty_eq_false,
    List.all_eq_true] at h
  exact ⟨by intro he; rw [he] at h; simp at h, fun c hc => by simpa using h.2 c hc⟩

theorem wfNameB_unpack {nm : Str} (h : wfNameB nm = true) :
    ¬(nm = []) ∧ 0 < nm.length ∧ nm.length ≤ 255
      ∧ (∀ c ∈ nm, dotMatch c = true ∧ ¬(c ∈ sanitizeChars))
      ∧ (∀ c, nm.head? = some c → isJsWs c = false)
      ∧ (∀ c, nm.getLast? = some c → isJsWs c = false) := by
  simp only [wfNameB, Bool.and_eq_true, Bool.not_eq_true', List.all_eq_true,
    List.isEmpty_eq_false] at h
  obtain ⟨⟨⟨⟨h1, h2⟩, h3⟩, h4⟩, h5⟩ := h
  have hne : ¬(nm = []) := by intro he; rw [he] at h1; simp at h1
  have hlen : 0 < nm.length := by
    cases nm with
    | nil => exact absurd rfl hne
    | cons a t => simp
  refine ⟨hne, hlen, by simpa using h2, ?_, ?_, ?_⟩
  · intro c hc
    have := h3 c hc
    simp only [Bool.and_eq_true, Bool.not_eq_true', decide_eq_false_iff_not] at this
    exact this
  · intro c hc
    rw [List.headD_eq_head?, hc] at h4
    simpa using h4
  · intro c hc
    rw [List.getLastD_eq_getLast?, hc] at h5
    simpa using h5

theorem renderNum_chars {dollar neg : Bool} {ip dp : Str}
    (hipd : ∀ c ∈ ip, isDigitChar c = true) (hdpd : ∀ c ∈ dp, isDigitChar c = true) :
    ∀ c ∈ renderNum dollar neg ip dp,
      c = '$' ∨ c = '-' ∨ c = '.' ∨ isDigitChar c = true := by
  intro c hc
  cases dollar with
  | false => exact Or.inr (renderNumFalse_chars hipd hdpd c hc)
  | true =>
    have hs : renderNum true neg ip dp = '$' :: renderNum false neg ip dp := by
      simp [renderNum]
    rw [hs] at hc
    rcases List.mem_cons.mp hc with h | h
    · exact Or.inl h
    · exact Or.inr (renderNumFalse_chars hipd hdpd c h)

theorem renderNum_not_ws {dollar neg : Bool} {ip dp : Str}
    (hipd : ∀ c ∈ ip, isDigitChar c = true) (hdpd : ∀ c ∈ dp, isDigitChar c = true) :
    ∀ c ∈ renderNum dollar neg ip dp, isJsWs c = false := by
  intro c hc
  rcases renderNum_chars hipd hdpd c hc with h | h | h | h
  · subst h; decide
  · subst h; decide
  · subst h; decide
  · exact isDigitChar_not_ws h

theorem renderNum_not_sanitize {dollar neg : Bool} {ip dp : Str}
    (hipd : ∀ c ∈ ip, isDigitChar c = true) (hdpd : ∀ c ∈ dp, isDigitChar c = true) :
    ∀ c ∈ renderNum dollar neg ip dp, ¬(c ∈ sanitizeChars) := by
  intro c hc
  rcases renderNum_chars hipd hdpd c hc with h | h | h | h
  · subst h; decide
  · subst h; decide
  · subst h; decide
  · exact digit_not_sanitize h

theorem renderNum_ne_nil {dollar neg : Bool} {ip dp : Str} (hip : ¬(ip = [])) :
    ¬(renderNum dollar neg ip dp = []) := by
  intro h
  unfold renderNum at h
  rcases List.append_eq_nil.mp h with ⟨h1, _⟩
  rcases List.append_eq_nil.mp h1 with ⟨_, h2⟩
  exact hip h2

theorem renderNum_getLast_digit {dollar neg : Bool} {ip dp : Str} (hip : ¬(ip = []))
    (hipd : ∀ c ∈ ip, isDigitChar c = true) (hdpd : ∀ c ∈ dp, isDigitChar c = true) :
    ∀ c, (renderNum dollar neg ip dp).getLast? = some c → isDigitChar c = true := by
  intro c hc
  unfold renderNum at hc
  rw [List.getLast?_append] at hc
  by_cases hdp : dp = []
  · rw [if_pos hdp] at hc
    simp only [List.getLast?_nil, Option.none_or] at hc
    rw [List.getLast?_append] at hc
    cases hlast : ip.getLast? with
    | none =>
      rw [List.getLast?_eq_none_iff] at hlast
      exact absurd hlast hip
    | some d =>
      rw [hlast] at hc
      simp only [Option.or_some, Option.some.injEq] at hc
      rw [← hc]
      exact hipd d (List.mem_of_mem_getLast? (by rw [hlast]; simp))
  · rw [if_neg hdp] at hc
    have hdl : ('.' :: dp).getLast? = dp.getLast? := by
      cases dp with
      | nil => exact absurd rfl hdp
      | cons d dt => simp [List.getLast?_cons_cons]
    rw [hdl] at hc
    cases hlast : dp.getLast? with
    | none =>
      rw [List.getLast?_eq_none_iff] at hlast
      exact absurd hlast hdp
    | some d =>
      rw [hlast] at hc
      simp only [Option.or_some, Option.some.injEq] at hc
      rw [← hc]
      exact hdpd d (List.mem_of_mem_getLast? (by rw [hlast]; simp))

theorem validateInput_eq_self {s : Str} (hne : ¬(s = [])) (hlen : s.length ≤ 500)
    (hhead : ∀ c, s.head? = some c → isJsWs c = false)
    (hlast : ∀ c, s.getLast? = some c → isJsWs c = false)
    (hsan : ∀ c ∈ s, ¬(c ∈ sanitizeChars)) :
    validateInput s = some s := by
  have hlen0 : 0 < s.length := by
    cases s with
    | nil => exact absurd rfl hne
    | cons a t => simp
  unfold validateInput
  rw [jsTrim_eq_self hhead hlast]
  rw [if_neg (by omega : ¬(s.length = 0 ∨ 500 < s.length))]
  have hfilter : s.filter (fun c => ¬(c ∈ sanitizeChars)) = s := by
    rw [List.filter_eq_self]
    intro a ha
    simpa using hsan a ha
  simp only [hfilter]
  rw [if_neg (by omega)]

theorem tryPattern_amount_first {dollar neg : Bool} {ip dp nm : Str}
    (hip : ¬(ip = [])) (hipd : ∀ c ∈ ip, isDigitChar c = true)
    (hdpd : ∀ c ∈ dp, isDigitChar c = true)
    (htrim : jsTrim nm = nm) (hlen0 : 0 < nm.length) (hlen255 : nm.length ≤ 255) :
    tryPattern (some (renderNum dollar neg ip dp, nm)) false
      = some { amount := numValue ip dp, name := nm } := by
  simp only [tryPattern, Bool.false_eq_true, if_false, htrim,
    removeFirst_renderNum hipd hdpd, jsParseFloat_token hip hipd hdpd,
    if_pos (And.intro hlen0 hlen255)]
  rw [abs_sign_mul (numValue ip dp) (numValue_nonneg ip dp)]

theorem tryPattern_name_first {dollar neg : Bool} {ip dp nm : Str}
    (hip : ¬(ip = [])) (hipd : ∀ c ∈ ip, isDigitChar c = true)
    (hdpd : ∀ c ∈ dp, isDigitChar c = true)
    (htrim : jsTrim nm = nm) (hlen0 : 0 < nm.length) (hlen255 : nm.length ≤ 255) :
    tryPattern (some (nm, renderNum dollar neg ip dp)) true
      = some { amount := numValue ip dp, name := nm } := by
  simp only [tryPattern, if_true, htrim,
    removeFirst_renderNum hipd hdpd, jsParseFloat_token hip hipd hdpd,
    if_pos (And.intro hlen0 hlen255)]
  rw [abs_sign_mul (numValue ip dp) (numValue_nonneg ip dp)]

theorem sep_head_blocks_number {sep nm : Str} (hsepws : ∀ c ∈ sep, isJsWs c = true)
    (hsepne : ¬(sep = [])) :
    ∀ c, (sep ++ nm).head? = some c → isDigitChar c = false ∧ ¬(c = '.') := by
  intro c hc
  cases sep with
  | nil => exact absurd rfl hsepne
  | cons a t =>
    rw [List.cons_append, List.head?_cons, Option.some.injEq] at hc
    rw [← hc]
    have ha : isJsWs a = true := hsepws a (by simp)
    exact ⟨isJsWs_not_digit ha, isJsWs_not_dot ha⟩

theorem plusG_space_head_sep {sep nm : Str} (hsepws : ∀ c ∈ sep, isJsWs c = true)
    (hsepne : ¬(sep = [])) (hnmhead : ∀ c, nm.head? = some c → isJsWs c = false) :
    (reMatches (RE.plusG CC.space) (sep ++ nm)).head? = some nm :=
  reMatches_plusG_head rfl hsepne (by simpa [ccMatch] using hsepws)
    (by simpa [ccMatch] using hnmhead)

theorem plusG_dot_full {nm : Str} (hne : ¬(nm = []))
    (hdot : ∀ c ∈ nm, dotMatch c = true) :
    ([] : Str) ∈ reMatches (RE.plusG CC.dot) nm := by
  have h := @reMatches_plusG_head CC.dot nm nm []
    (by simp) hne (by simpa [ccMatch] using hdot) (fun c hc => by simp at hc)
  exact List.mem_of_mem_head? (by rw [h]; simp)

theorem pattern2Match_amount_first {dollar neg : Bool} {ip dp sep nm : Str}
    (hip : ¬(ip = [])) (hipd : ∀ c ∈ ip, isDigitChar c = true)
    (hdp : dp = [] ∨ ((dp.length = 1 ∨ dp.length = 2) ∧ ∀ c ∈ dp, isDigitChar c = true))
    (hsepws : ∀ c ∈ sep, isJsWs c = true) (hsepne : ¬(sep = []))
    (hnmne : ¬(nm = [])) (hnmdot : ∀ c ∈ nm, dotMatch c = true)
    (hnmhead : ∀ c, nm.head? = some c → isJsWs c = false) :
    pattern2Match (renderNum dollar neg ip dp ++ (sep ++ nm))
      = some (renderNum dollar neg ip dp, nm) := by
  have hA := @reMatches_numDollar_head dollar neg _ _
    (sep ++ nm) hip hipd hdp (sep_head_blocks_number hsepws hsepne)
  have hW := plusG_space_head_sep hsepws hsepne hnmhead
  have hB := plusG_dot_full hnmne hnmdot
  have h := matchTwoGroups_of_heads numDollar (RE.plusG CC.dot)
    (renderNum dollar neg ip dp ++ (sep ++ nm)) (sep ++ nm) nm hA hW hB
  rw [pattern2Match, h]
  congr 2
  have hl : (renderNum dollar neg ip dp ++ (sep ++ nm)).length - (sep ++ nm).length
      = (renderNum dollar neg ip dp).length := by
    rw [List.length_append]
    omega
  rw [hl, List.take_left]

theorem pattern1Match_amount_first {neg : Bool} {ip dp sep nm : Str}
    (hip : ¬(ip = [])) (hipd : ∀ c ∈ ip, isDigitChar c = true)
    (hdp : dp = [] ∨ ((dp.length = 1 ∨ dp.length = 2) ∧ ∀ c ∈ dp, isDigitChar c = true))
    (hsepws : ∀ c ∈ sep, isJsWs c = true) (hsepne : ¬(sep = []))
    (hnmne : ¬(nm = [])) (hnmdot : ∀ c ∈ nm, dotMatch c = true)
    (hnmhead : ∀ c, nm.head? = some c → isJsWs c = false) :
    pattern1Match (renderNum false neg ip dp ++ (sep ++ nm))
      = some (renderNum false neg ip dp, nm) := by
  have hs : renderNum false neg ip dp ++ (sep ++ nm)
      = (if neg then ['-'] else [])
          ++ (ip ++ ((if dp = [] then [] else '.' :: dp) ++ (sep ++ nm))) := by
    simp [renderNum, List.append_assoc]
  have hA : (reMatches numCore (renderNum false neg ip dp ++ (sep ++ nm))).head?
      = some (sep ++ nm) := by
    rw [hs]
    exact reMatches_numCore_head hip hipd hdp (sep_head_blocks_number hsepws hsepne)
  have hW := plusG_space_head_sep hsepws hsepne hnmhead
  have hB := plusG_dot_full hnmne hnmdot
  have h := matchTwoGroups_of_heads numCore (RE.plusG CC.dot)
    (renderNum false neg ip dp ++ (sep ++ nm)) (sep ++ nm) nm hA hW hB
  rw [pattern1Match, h]
  congr 2
  have hl : (renderNum false neg ip dp ++ (sep ++ nm)).length - (sep ++ nm).length
      = (renderNum false neg ip dp).length := by
    rw [List.length_append]
    omega
  rw [hl, List.take_left]

theorem parse_amount_first {dollar neg : Bool} {ip dp sep nm : Str}
    (hnum : wfNumB ip dp = true) (hsep : wfSepB sep = true) (hnm : wfNameB nm = true)
    (hlen : (renderNum dollar neg ip dp ++ (sep ++ nm)).length ≤ 500) :
    parseTransactionDetails (renderNum dollar neg ip dp ++ (sep ++ nm))
      = some { amount := numValue ip dp, name := nm } := by
  obtain ⟨hip, hipd, hdp, hdpd⟩ := wfNumB_unpack hnum
  obtain ⟨hsepne, hsepws⟩ := wfSepB_unpack hsep
  obtain ⟨hnmne, hlen0, hlen255, hnmchars, hnmhead, hnmlast⟩ := wfNameB_unpack hnm
  have hnmdot : ∀ c ∈ nm, dotMatch c = true := fun c hc => (hnmchars c hc).1
  have htrim : jsTrim nm = nm :=
    jsTrim_eq_self (fun c hc => hnmhead c hc) (fun c hc => hnmlast c hc)
  have hrne := @renderNum_ne_nil dollar neg _ dp hip
  have hv : validateInput (renderNum dollar neg ip dp ++ (sep ++ nm))
      = some (renderNum dollar neg ip dp ++ (sep ++ nm)) := by
    refine validateInput_eq_self ?_ hlen ?_ ?_ ?_
    · intro h
      exact hrne (List.append_eq_nil.mp h).1
    · intro c hc
      rw [List.head?_append] at hc
      cases hh : (renderNum dollar neg ip dp).head? with
      | none => exact absurd (List.head?_eq_none_iff.mp hh) hrne
      | some a =>
        rw [hh, Option.or_some, Option.some.injEq] at hc
        rw [← hc]
        exact renderNum_not_ws hipd hdpd a (List.mem_of_mem_head? hh)
    · intro c hc
      rw [List.getLast?_append, List.getLast?_append] at hc
      cases hh : nm.getLast? with
      | none => exact absurd (List.getLast?_eq_none_iff.mp hh) hnmne
      | some a =>
        rw [hh, Option.or_some, Option.or_some, Option.some.injEq] at hc
        rw [← hc]
        exact hnmlast a hh
    · intro c hc
      rcases List.mem_append.mp hc with h | h
      · exact renderNum_not_sanitize hipd hdpd c h
      rcases List.mem_append.mp h with h | h
      · exact isJsWs_not_sanitize (hsepws c h)
      · exact (hnmchars c h).2
  have ht2 : tryPattern (pattern2Match (renderNum dollar neg ip dp ++ (sep ++ nm))) false
      = some { amount := numValue ip dp, name := nm } := by
    rw [pattern2Match_amount_first hip hipd hdp hsepws hsepne hnmne hnmdot
      (fun c hc => hnmhead c hc)]
    exact tryPattern_amount_first hip hipd hdpd htrim hlen0 hlen255
  cases dollar with
  | false =>
    have ht1 : tryPattern (pattern1Match (renderNum false neg ip dp ++ (sep ++ nm))) false
        = some { amount := numValue ip dp, name := nm } := by
      rw [pattern1Match_amount_first hip hipd hdp hsepws hsepne hnmne hnmdot
        (fun c hc => hnmhead c hc)]
      exact tryPattern_amount_first hip hipd hdpd htrim hlen0 hlen255
    rw [parseTransactionDetails, hv]
    simp only [ht1, Option.orElse]
  | true =>
    have hsplit : renderNum true neg ip dp ++ (sep ++ nm)
        = '$' :: (renderNum false neg ip dp ++ (sep ++ nm)) := by
      simp [renderNum]
    have ht1 : tryPattern (pattern1Match (renderNum true neg ip dp ++ (sep ++ nm))) false
        = none := by
      rw [hsplit, pattern1Match_dollar]
      rfl
    rw [parseTransactionDetails, hv]
    simp only [ht1, ht2, Option.orElse]

theorem not_reChars_numCore {c : Char} (hdig : isDigitChar c = false)
    (hdash : ¬(c = '-')) (hdot : ¬(c = '.')) : ¬ reChars numCore c := by
  intro h
  simp only [numCore, decimalPart, reChars, ccMatch, hdig] at h
  rcases h with h | h | h | h | h <;> first | exact hdash h | exact hdot h | cases h

theorem ws_not_reChars_numCore {c : Char} (h : isJsWs c = true) : ¬ reChars numCore c := by
  have hm : c ∈ wsChars := by simpa [isJsWs] using h
  obtain ⟨h1, h2, h3, _, _⟩ := mem_wsChars_props c hm
  exact not_reChars_numCore h1 h2 h3

theorem ws_not_reChars_numDollar {c : Char} (h : isJsWs c = true) :
    ¬ reChars numDollar c := by
  have hm : c ∈ wsChars := by simpa [isJsWs] using h
  obtain ⟨h1, h2, h3, h4, _⟩ := mem_wsChars_props c hm
  intro hc
  rcases hc with hc | hc
  · exact h4 hc
  · exact not_reChars_numCore h1 h2 h3 hc

theorem dollar_not_reChars_numCore : ¬ reChars numCore '$' :=
  not_reChars_numCore (by decide) (by decide) (by decide)

theorem no_full_match_of_bad_char {B : RE} {r2 : Str} {c : Char} (hc : c ∈ r2)
    (hbad : ¬ reChars B c) : ¬(([] : Str) ∈ reMatches B r2) := by
  intro h
  obtain ⟨p, hp, hchars⟩ := reMatches_consumed B r2 [] h
  rw [List.append_nil] at hp
  exact hbad (hchars c (by rw [hp] at hc; exact hc))

theorem inner_findSome_none {B : RE} (s : Str) {r1 : Str}
    (hbad : ∀ p r2, r1 = p ++ r2 → ¬(p = []) → (∀ c ∈ p, isJsWs c = true) →
      ∃ c ∈ r2, ¬ reChars B c) :
    (reMatches (RE.plusG CC.space) r1).findSome? (fun r2 =>
      if ([] : Str) ∈ reMatches B r2 then some (s.take (s.length - r1.length), r2)
      else none) = none := by
  refine findSome?_eq_none_of_all ?_
  intro r2 hr2
  obtain ⟨p, hp, hpne, hpws⟩ := reMatches_plusG_consumed CC.space r1 r2 hr2
  obtain ⟨c, hc, hbadc⟩ := hbad p r2 hp hpne (fun c hc => by
    simpa [ccMatch] using hpws c hc)
  rw [if_neg (no_full_match_of_bad_char hc hbadc)]

theorem prefix_absorb {p r2 q X : Str} (h : p ++ r2 = q ++ X)
    (hlen : q.length ≤ p.length) : q <+: p :=
  List.prefix_of_prefix_length_le (h ▸ List.prefix_append q X)
    (List.prefix_append p r2) hlen

theorem split_remainder {p r2 q X : Str} (h : p ++ r2 = q ++ X)
    (hlen : p.length ≤ q.length) : r2 = q.drop p.length ++ X := by
  have h2 := congrArg (List.drop p.length) h
  rw [List.drop_left, List.drop_append_of_le_length hlen] at h2
  exact h2

theorem bad_split_in_name {sep nm rest : Str} {d : ℕ} (hd : d < nm.length)
    (hlast : ∀ c, nm.getLast? = some c → isJsWs c = false)
    (hsepne : ¬(sep = [])) (hsepws : ∀ c ∈ sep, isJsWs c = true) :
    ∀ p r2, (nm ++ (sep ++ rest)).drop d = p ++ r2 → ¬(p = []) →
      (∀ c ∈ p, isJsWs c = true) → ∃ c ∈ r2, isJsWs c = true := by
  intro p r2 hsplit hpne hpws
  rw [List.drop_append_of_le_length (le_of_lt hd)] at hsplit
  have hqne : ¬(nm.drop d = []) := by
    intro h
    rw [List.drop_eq_nil_iff] at h
    omega
  by_cases hlen : (nm.drop d).length ≤ p.length
  · exfalso
    have hqp : nm.drop d <+: p := prefix_absorb hsplit.symm hlen
    obtain ⟨c, hc⟩ : ∃ c, (nm.drop d).getLast? = some c := by
      cases hq : (nm.drop d).getLast? with
      | none => exact absurd (List.getLast?_eq_none_iff.mp hq) hqne
      | some c => exact ⟨c, rfl⟩
    have hcmem : c ∈ p := hqp.subset (List.mem_of_mem_getLast? hc)
    have hlq : nm.getLast? = some c := by
      conv_lhs => rw [← List.take_append_drop d nm]
      rw [List.getLast?_append, hc, Option.or_some]
    have h1 := hpws c hcmem
    have h2 := hlast c hlq
    rw [h1] at h2
    cases h2
  · have hr2 : r2 = (nm.drop d).drop p.length ++ (sep ++ rest) :=
      split_remainder hsplit.symm (by omega)
    cases sep with
    | nil => exact absurd rfl hsepne
    | cons a t =>
      refine ⟨a, ?_, hsepws a (by simp)⟩
      rw [hr2]
      simp

theorem bad_split_in_sep_dollar {sep rest : Str} {j : ℕ} (hj : j < sep.length) :
    ∀ p r2, (sep ++ '$' :: rest).drop j = p ++ r2 → ¬(p = []) →
      (∀ c ∈ p, isJsWs c = true) → ∃ c ∈ r2, ¬ reChars numCore c := by
  intro p r2 hsplit hpne hpws
  rw [List.drop_append_of_le_length (le_of_lt hj)] at hsplit
  by_cases hlen : (sep.drop j).length + 1 ≤ p.length
  · exfalso
    have hs2 : sep.drop j ++ '$' :: rest = (sep.drop j ++ ['$']) ++ rest := by simp
    rw [hs2] at hsplit
    have hqp : sep.drop j ++ ['$'] <+: p :=
      prefix_absorb hsplit.symm
        (by simp only [List.length_append, List.length_cons, List.length_nil]; omega)
    have hd : '$' ∈ p := hqp.subset (by simp)
    exact absurd (hpws _ hd) (by decide)
  · have hr2 : r2 = (sep.drop j).drop p.length ++ '$' :: rest :=
      split_remainder hsplit.symm (by omega)
    refine ⟨'$', ?_, dollar_not_reChars_numCore⟩
    rw [hr2]
    simp

theorem reMatches_plusL_eq (cc : CC) (s : Str) :
    reMatches (RE.plusL cc) s
      = (List.range (s.takeWhile (ccMatch cc)).length).map (fun i => s.drop (i + 1)) := rfl

theorem matchTwoGroups_name_first {B : RE} {sep nm num : Str}
    (hBws : ∀ c, isJsWs c = true → ¬ reChars B c)
    (hnmne : ¬(nm = [])) (hnmdot : ∀ c ∈ nm, dotMatch c = true)
    (hnmlast : ∀ c, nm.getLast? = some c → isJsWs c = false)
    (hsepne : ¬(sep = [])) (hsepws : ∀ c ∈ sep, isJsWs c = true)
    (hnumhead : ∀ c, num.head? = some c → isJsWs c = false)
    (hfull : ([] : Str) ∈ reMatches B num) :
    matchTwoGroups (RE.plusL CC.dot) B (nm ++ (sep ++ num)) = some (nm, num) := by
  unfold matchTwoGroups
  rw [reMatches_plusL_eq, findSome?_map_eq]
  have hN : 0 < nm.length := by
    cases nm with
    | nil => exact absurd rfl hnmne
    | cons a t => simp
  have htw : ((nm ++ (sep ++ num)).takeWhile (ccMatch CC.dot)).length
      = nm.length + ((sep ++ num).takeWhile (ccMatch CC.dot)).length := by
    rw [List.takeWhile_append, takeWhile_eq_self_of_all (by simpa [ccMatch] using hnmdot)]
    rw [if_pos rfl, List.length_append]
  refine findSome?_range_first _ (nm.length - 1) (by omega) ?_ ?_
  · intro i hi
    refine inner_findSome_none _ ?_
    intro p r2 hsplit hpne hpws
    obtain ⟨c, hc, hcws⟩ := bad_split_in_name (by omega) hnmlast hsepne hsepws p r2
      hsplit hpne hpws
    exact ⟨c, hc, hBws c hcws⟩
  · have hdropN : (nm ++ (sep ++ num)).drop (nm.length - 1 + 1) = sep ++ num := by
      have h1 : nm.length - 1 + 1 = nm.length := by omega
      rw [h1, List.drop_left]
    rw [hdropN]
    have hhead : (reMatches (RE.plusG CC.space) (sep ++ num)).head? = some num :=
      reMatches_plusG_head rfl hsepne (by simpa [ccMatch] using hsepws)
        (fun c hc => by simpa [ccMatch] using hnumhead c hc)
    cases hlist : reMatches (RE.plusG CC.space) (sep ++ num) with
    | nil => rw [hlist] at hhead; cases hhead
    | cons a t =>
      rw [hlist, List.head?_cons, Option.some.injEq] at hhead
      rw [List.findSome?_cons]
      rw [hhead, if_pos hfull]
      have hcap : (nm ++ (sep ++ num)).take
          ((nm ++ (sep ++ num)).length - (sep ++ num).length) = nm := by
        rw [List.length_append]
        have h1 : nm.length + (sep ++ num).length - (sep ++ num).length = nm.length := by
          omega
        rw [h1, List.take_left]
      rw [hcap]

theorem matchTwoGroups_p3_dollar_none {sep nm num₀ : Str}
    (hnmlast : ∀ c, nm.getLast? = some c → isJsWs c = false)
    (hsepne : ¬(sep = [])) (hsepws : ∀ c ∈ sep, isJsWs c = true)
    (hnumws : ∀ c ∈ '$' :: num₀, isJsWs c = false) :
    matchTwoGroups (RE.plusL CC.dot) numCore (nm ++ (sep ++ '$' :: num₀)) = none := by
  unfold matchTwoGroups
  rw [reMatches_plusL_eq, findSome?_map_eq]
  refine findSome?_eq_none_of_all ?_
  intro i hi
  by_cases hd : i + 1 < nm.length
  · refine inner_findSome_none _ ?_
    intro p r2 hsplit hpne hpws
    obtain ⟨c, hc, hcws⟩ := bad_split_in_name hd hnmlast hsepne hsepws p r2
      hsplit hpne hpws
    exact ⟨c, hc, ws_not_reChars_numCore hcws⟩
  · have hdrop : (nm ++ (sep ++ '$' :: num₀)).drop (i + 1)
        = (sep ++ '$' :: num₀).drop (i + 1 - nm.length) := by
      rw [show i + 1 = nm.length + (i + 1 - nm.length) from by omega, List.drop_append]
      congr 1
      omega
    rw [hdrop]
    by_cases hj : i + 1 - nm.length < sep.length
    · exact inner_findSome_none _ (bad_split_in_sep_dollar hj)
    · have hdrop2 : (sep ++ '$' :: num₀).drop (i + 1 - nm.length)
          = ('$' :: num₀).drop (i + 1 - nm.length - sep.length) := by
        rw [show i + 1 - nm.length
            = sep.length + (i + 1 - nm.length - sep.length) from by omega,
          List.drop_append]
        congr 1
        omega
      rw [hdrop2]
      refine inner_findSome_none _ ?_
      intro p r2 hsplit hpne hpws
      exfalso
      cases p with
      | nil => exact hpne rfl
      | cons c pt =>
        have hcr1 : c ∈ ('$' :: num₀).drop (i + 1 - nm.length - sep.length) := by
          rw [hsplit]
          simp
        have hcnum : c ∈ '$' :: num₀ := List.drop_subset _ _ hcr1
        have h1 := hpws c (by simp)
        rw [hnumws c hcnum] at h1
        cases h1

theorem parse_name_first {dollar neg : Bool} {ip dp sep nm : Str}
    (hnum : wfNumB ip dp = true) (hsep : wfSepB sep = true) (hnm : wfNameB nm = true)
    (hlen : (nm ++ (sep ++ renderNum dollar neg ip dp)).length ≤ 500)
    (h2 : pattern2Match (nm ++ (sep ++ renderNum dollar neg ip dp)) = none) :
    parseTransactionDetails (nm ++ (sep ++ renderNum dollar neg ip dp))
      = some { amount := numValue ip dp, name := nm } := by
  obtain ⟨hip, hipd, hdp, hdpd⟩ := wfNumB_unpack hnum
  obtain ⟨hsepne, hsepws⟩ := wfSepB_unpack hsep
  obtain ⟨hnmne, hlen0, hlen255, hnmchars, hnmhead, hnmlast⟩ := wfNameB_unpack hnm
  have hnmdot : ∀ c ∈ nm, dotMatch c = true := fun c hc => (hnmchars c hc).1
  have htrim : jsTrim nm = nm :=
    jsTrim_eq_self (fun c hc => hnmhead c hc) (fun c hc => hnmlast c hc)
  have hrne := @renderNum_ne_nil dollar neg _ dp hip
  have hnumheadws : ∀ c, (renderNum dollar neg ip dp).head? = some c → isJsWs c = false :=
    fun c hc => renderNum_not_ws hipd hdpd c (List.mem_of_mem_head? hc)
  have hv : validateInput (nm ++ (sep ++ renderNum dollar neg ip dp))
      = some (nm ++ (sep ++ renderNum dollar neg ip dp)) := by
    refine validateInput_eq_self ?_ hlen ?_ ?_ ?_
    · intro h
      exact hnmne (List.append_eq_nil.mp h).1
    · intro c hc
      rw [List.head?_append] at hc
      cases hh : nm.head? with
      | none => exact absurd (List.head?_eq_none_iff.mp hh) hnmne
      | some a =>
        rw [hh, Option.or_some, Option.some.injEq] at hc
        rw [← hc]
        exact hnmhead a hh
    · intro c hc
      rw [List.getLast?_append, List.getLast?_append] at hc
      cases hh : (renderNum dollar neg ip dp).getLast? with
      | none => exact absurd (List.getLast?_eq_none_iff.mp hh) hrne
      | some a =>
        rw [hh, Option.or_some, Option.or_some, Option.some.injEq] at hc
        rw [← hc]
        exact isDigitChar_not_ws (renderNum_getLast_digit hip hipd hdpd a hh)
    · intro c hc
      rcases List.mem_append.mp hc with h | h
      · exact (hnmchars c h).2
      rcases List.mem_append.mp h with h | h
      · exact isJsWs_not_sanitize (hsepws c h)
      · exact renderNum_not_sanitize hipd hdpd c h
  have h1 : pattern1Match (nm ++ (sep ++ renderNum dollar neg ip dp)) = none :=
    pattern2_none_imp_pattern1 _ h2
  have ht1 : tryPattern (pattern1Match (nm ++ (sep ++ renderNum dollar neg ip dp))) false
      = none := by rw [h1]; rfl
  have ht2 : tryPattern (pattern2Match (nm ++ (sep ++ renderNum dollar neg ip dp))) false
      = none := by rw [h2]; rfl
  cases dollar with
  | false =>
    have h3 : pattern3Match (nm ++ (sep ++ renderNum false neg ip dp))
        = some (nm, renderNum false neg ip dp) :=
      matchTwoGroups_name_first (fun c => ws_not_reChars_numCore)
        hnmne hnmdot (fun c hc => hnmlast c hc) hsepne hsepws hnumheadws
        (reMatches_numCore_full hip hipd hdp)
    have ht3 : tryPattern (pattern3Match (nm ++ (sep ++ renderNum false neg ip dp))) true
        = some { amount := numValue ip dp, name := nm } := by
      rw [h3]
      exact tryPattern_name_first hip hipd hdpd htrim hlen0 hlen255
    rw [parseTransactionDetails, hv]
    simp only [ht1, ht2, ht3, Option.orElse]
  | true =>
    have hsplit : renderNum true neg ip dp = '$' :: renderNum false neg ip dp := by
      simp [renderNum]
    have h3 : pattern3Match (nm ++ (sep ++ renderNum true neg ip dp)) = none := by
      rw [hsplit]
      refine matchTwoGroups_p3_dollar_none (fun c hc => hnmlast c hc) hsepne hsepws ?_
      intro c hc
      rw [← hsplit] at hc
      exact renderNum_not_ws hipd hdpd c hc
    have h4 : pattern4Match (nm ++ (sep ++ renderNum true neg ip dp))
        = some (nm, renderNum true neg ip dp) :=
      matchTwoGroups_name_first (fun c => ws_not_reChars_numDollar)
        hnmne hnmdot (fun c hc => hnmlast c hc) hsepne hsepws hnumheadws
        (reMatches_numDollar_full hip hipd hdp)
    have ht3 : tryPattern (pattern3Match (nm ++ (sep ++ renderNum true neg ip dp))) true
        = none := by rw [h3]; rfl
    have ht4 : tryPattern (pattern4Match (nm ++ (sep ++ renderNum true neg ip dp))) true
        = some { amount := numValue ip dp, name := nm } := by
      rw [h4]
      exact tryPattern_name_first hip hipd hdpd htrim hlen0 hlen255
    rw [parseTransactionDetails, hv]
    simp only [ht1, ht2, ht3, ht4, Option.orElse]

theorem tryPattern_nonneg {m : Option (Str × Str)} {b : Bool} {p : ParsedTransaction}
    (h : tryPattern m b = some p) : 0 ≤ p.amount := by
  cases m with
  | none => cases h
  | some g =>
    obtain ⟨g1, g2⟩ := g
    simp only [tryPattern] at h
    cases hpf : jsParseFloat (removeFirst ',' (removeFirst '$' (if b then g2 else g1))) with
    | none => rw [hpf] at h; cases h
    | some a =>
      simp only [hpf] at h
      by_cases hc : 0 < (jsTrim (if b then g1 else g2)).length
          ∧ (jsTrim (if b then g1 else g2)).length ≤ 255
      · rw [if_pos hc, Option.some.injEq] at h
        rw [← h]
        exact abs_nonneg a
      · rw [if_neg hc] at h
        cases h

theorem parse_nonneg {s : Str} {p : ParsedTransaction}
    (h : parseTransactionDetails s = some p) : 0 ≤ p.amount := by
  rw [parseTransactionDetails] at h
  cases hv : validateInput s with
  | none => rw [hv] at h; cases h
  | some v =>
    simp only [hv] at h
    cases h1 : tryPattern (pattern1Match v) false with
    | some q =>
      rw [h1] at h
      simp only [Option.orElse, Option.some.injEq] at h
      rw [← h]
      exact tryPattern_nonneg h1
    | none =>
      rw [h1] at h
      simp only [Option.orElse] at h
      cases h2 : tryPattern (pattern2Match v) false with
      | some q =>
        rw [h2] at h
        simp only [Option.orElse, Option.some.injEq] at h
        rw [← h]
        exact tryPattern_nonneg h2
      | none =>
        rw [h2] at h
        simp only [Option.orElse] at h
        cases h3 : tryPattern (pattern3Match v) true with
        | some q =>
          rw [h3] at h
          simp only [Option.orElse, Option.some.injEq] at h
          rw [← h]
          exact tryPattern_nonneg h3
        | none =>
          rw [h3] at h
          simp only [Option.orElse] at h
          exact tryPattern_nonneg h

/-- Claim C5 counterexample: the input 12 things 5 is simultaneously of the
well-formed shape amount-then-name (12, things 5) and name-then-amount
(12 things, 5), and the parser does not return the name-first reading the
claim promises for it: amount-first wins, so the name is things 5, not
12 things.  The claim as stated asserts both readings at once. -/
theorem c5_counterexample_ambiguous_shape :
    wfNumB (str "5") [] = true ∧ wfSepB (str " ") = true
    ∧ wfNameB (str "12 things") = true
    ∧ str "12 things" ++ (str " " ++ renderNum false false (str "5") [])
        = str "12 things 5"
    ∧ (parseTransactionDetails (str "12 things 5")).map (fun p => p.name)
        = some (str "things 5")
    ∧ ¬((parseTransactionDetails (str "12 things 5")).map (fun p => p.name)
        = some (str "12 things")) := by decide

/-- Claim C5 (corrected): for a well-formed amount-first input
amount-space-name (optional dollar sign, optional minus, optional one or two
decimal digits, name trimmed and sanitised already), parseTransactionDetails
returns the magnitude of the amount and the name; a well-formed name-first
input name-space-amount gives the same result provided no amount-first
pattern matches the whole input (when both shapes apply, amount-first wins,
as the counterexample shows); and every successful parse returns a
nonnegative amount — the sign of the input never reaches the result. -/
theorem c5_parse_shapes :
    (∀ (dollar neg : Bool) (ip dp sep nm : Str),
      wfNumB ip dp = true → wfSepB sep = true → wfNameB nm = true →
      (renderNum dollar neg ip dp ++ (sep ++ nm)).length ≤ 500 →
      parseTransactionDetails (renderNum dollar neg ip dp ++ (sep ++ nm))
        = some { amount := numValue ip dp, name := nm })
    ∧ (∀ (dollar neg : Bool) (ip dp sep nm : Str),
      wfNumB ip dp = true → wfSepB sep = true → wfNameB nm = true →
      (nm ++ (sep ++ renderNum dollar neg ip dp)).length ≤ 500 →
      pattern2Match (nm ++ (sep ++ renderNum dollar neg ip dp)) = none →
      parseTransactionDetails (nm ++ (sep ++ renderNum dollar neg ip dp))
        = some { amount := numValue ip dp, name := nm })
    ∧ (∀ (s : Str) (p : ParsedTransaction),
      parseTransactionDetails s = some p → 0 ≤ p.amount) :=
  ⟨fun _ _ _ _ _ _ h1 h2 h3 h4 => parse_amount_first h1 h2 h3 h4,
   fun _ _ _ _ _ _ h1 h2 h3 h4 h5 => parse_name_first h1 h2 h3 h4 h5,
   fun _ _ h => parse_nonneg h⟩

theorem c5_parse_shapes_witness :
    parseTransactionDetails
        (renderNum false false (str "100") [] ++ (str " " ++ str "Coffee"))
      = some { amount := numValue (str "100") [], name := str "Coffee" }
    ∧ parseTransactionDetails
        (str "Gas" ++ (str " " ++ renderNum true false (str "75") (str "25")))
      = some { amount := numValue (str "75") (str "25"), name := str "Gas" } :=
  ⟨c5_parse_shapes.1 false false (str "100") [] (str " ") (str "Coffee")
      (by decide) (by decide) (by decide) (by decide),
   c5_parse_shapes.2.1 true false (str "75") (str "25") (str " ") (str "Gas")
      (by decide) (by decide) (by decide) (by decide) (by decide)⟩
